import Mathlib

/-!
Verification of the field-value formatting engine and render orchestration
layer of `reportcreator_api/tasks/rendering/entry.py`.

Python runtime values are shallowly embedded as `PyValue`; Python dicts are
association lists that keep insertion order (as CPython dicts do); Django
model objects (`ProjectMemberInfo`, `PentestUser`) are embedded as `.pobj`
values tagged with their class name.  Fallible Python code is embedded in
`Except PyErr`.
-/

/-- Embedded Python exception kinds (only the distinctions the code makes;
`valueError` is raised by `django.utils.dateparse.parse_datetime` on a
well-formatted but invalid datetime string). -/
inductive PyErr where
  | typeError
  | keyError
  | attributeError
  | valueError
  deriving DecidableEq, Repr

/-- Shallow embedding of the Python values flowing through `entry.py`. -/
inductive PyValue where
  | none
  | bool (b : Bool)
  | int (n : Int)
  | str (s : String)
  | list (xs : List PyValue)
  | dict (kvs : List (String × PyValue))
  | pobj (cls : String) (attrs : List (String × PyValue))
  deriving Repr

mutual

/-- Boolean equality on embedded Python values. -/
def PyValue.beq : PyValue → PyValue → Bool
  | .none, .none => true
  | .bool a, .bool b => a == b
  | .int a, .int b => a == b
  | .str a, .str b => a == b
  | .list xs, .list ys => PyValue.beqList xs ys
  | .dict a, .dict b => PyValue.beqKVs a b
  | .pobj c a, .pobj d b => c == d && PyValue.beqKVs a b
  | _, _ => false

/-- Boolean equality on lists of embedded Python values. -/
def PyValue.beqList : List PyValue → List PyValue → Bool
  | [], [] => true
  | x :: xs, y :: ys => PyValue.beq x y && PyValue.beqList xs ys
  | _, _ => false

/-- Boolean equality on key-value lists of embedded Python values. -/
def PyValue.beqKVs : List (String × PyValue) → List (String × PyValue) → Bool
  | [], [] => true
  | (k, v) :: xs, (l, w) :: ys => k == l && PyValue.beq v w && PyValue.beqKVs xs ys
  | _, _ => false

end

mutual

theorem PyValue.beq_iff_eq : ∀ a b : PyValue, PyValue.beq a b = true ↔ a = b
  | .none, b => by cases b <;> simp [PyValue.beq]
  | .bool a, b => by cases b <;> simp [PyValue.beq]
  | .int a, b => by cases b <;> simp [PyValue.beq]
  | .str a, b => by cases b <;> simp [PyValue.beq]
  | .list xs, b => by
      cases b <;> simp [PyValue.beq, PyValue.beqList_iff_eq xs]
  | .dict a, b => by
      cases b <;> simp [PyValue.beq, PyValue.beqKVs_iff_eq a]
  | .pobj c a, b => by
      cases b <;> simp [PyValue.beq, PyValue.beqKVs_iff_eq a]

theorem PyValue.beqList_iff_eq : ∀ xs ys : List PyValue,
    PyValue.beqList xs ys = true ↔ xs = ys
  | [], ys => by cases ys <;> simp [PyValue.beqList]
  | x :: xs, ys => by
      cases ys <;>
        simp [PyValue.beqList, PyValue.beq_iff_eq x, PyValue.beqList_iff_eq xs]

theorem PyValue.beqKVs_iff_eq : ∀ xs ys : List (String × PyValue),
    PyValue.beqKVs xs ys = true ↔ xs = ys
  | [], ys => by cases ys <;> simp [PyValue.beqKVs]
  | (k, v) :: xs, ys => by
      cases ys with
      | nil => simp [PyValue.beqKVs]
      | cons y ys =>
        obtain ⟨l, w⟩ := y
        simp [PyValue.beqKVs, PyValue.beq_iff_eq v, PyValue.beqKVs_iff_eq xs]

end

instance : DecidableEq PyValue := fun a b =>
  decidable_of_iff (PyValue.beq a b = true) (PyValue.beq_iff_eq a b)

namespace PyValue

/-- Python truthiness (`bool(v)`): `None`, `False`, `0`, `""`, `[]` and
the empty dict are falsy; model objects are always truthy. -/
def truthy : PyValue → Bool
  | .none => false
  | .bool b => b
  | .int n => n != 0
  | .str s => s ≠ ""
  | .list xs => !xs.isEmpty
  | .dict kvs => !kvs.isEmpty
  | .pobj _ _ => true

/-- Python `str(v)` for the value shapes that occur as ids (strings, UUIDs
modelled as strings, `None`, ints, bools). Container shapes never occur as
ids in the code under verification; they get an opaque rendering. -/
def pyToString : PyValue → String
  | .none => "None"
  | .bool true => "True"
  | .bool false => "False"
  | .int n => toString n
  | .str s => s
  | .list _ => "<list>"
  | .dict _ => "<dict>"
  | .pobj cls _ => "<" ++ cls ++ ">"

/-- Python iteration (`for e in v`): lists yield elements, strings yield
one-character strings, dicts yield their keys; other values raise
`TypeError`. -/
def pyIter : PyValue → Except PyErr (List PyValue)
  | .list xs => .ok xs
  | .str s => .ok (s.data.map (fun c => .str (String.mk [c])))
  | .dict kvs => .ok (kvs.map (fun kv => .str kv.1))
  | _ => .error .typeError

/-- Python hashability of the value shapes flowing through `entry.py`:
lists and dicts are unhashable (`set(...)` raises `TypeError` when it
reaches one); `None`, bools, ints, strings and model objects are
hashable. -/
def pyHashable : PyValue → Bool
  | .list _ => false
  | .dict _ => false
  | _ => true

end PyValue

/-- Association-list lookup modelling `d[k]` / `d.get(k)` on a CPython dict. -/
def dictGet (kvs : List (String × PyValue)) (k : String) : Option PyValue :=
  (kvs.find? (fun kv => kv.1 = k)).map (·.2)

/-- `d.get(k, default)`. -/
def dictGetD (kvs : List (String × PyValue)) (k : String) (d : PyValue) : PyValue :=
  (dictGet kvs k).getD d

/-- `k in d`. -/
def dictHas (kvs : List (String × PyValue)) (k : String) : Bool :=
  (dictGet kvs k).isSome

/-- `d[k] = v` on a CPython dict: updates the value in place when the key
exists (keeping its position), otherwise appends the key at the end. -/
def dictSet (kvs : List (String × PyValue)) (k : String) (v : PyValue) :
    List (String × PyValue) :=
  if dictHas kvs k then
    kvs.map (fun kv => if kv.1 = k then (k, v) else kv)
  else
    kvs ++ [(k, v)]

/-- `d.pop(k, default)`: the removed value (or default) and the remaining dict. -/
def dictPop (kvs : List (String × PyValue)) (k : String) (d : PyValue) :
    PyValue × List (String × PyValue) :=
  (dictGetD kvs k d, kvs.filter (fun kv => kv.1 ≠ k))

/-- CPython `a | b` on dicts: keys of `a` in their order (with `b`'s value
whenever `b` also has the key), then the keys only in `b`, in `b`'s order. -/
def dictMerge (a b : List (String × PyValue)) : List (String × PyValue) :=
  a.map (fun kv => (kv.1, dictGetD b kv.1 kv.2)) ++
    b.filter (fun kv => ¬ dictHas a kv.1)

/-- `get_key_or_attr(v, k)` (repository utility, used on dicts and model
objects): dict key lookup or object attribute lookup. -/
def getKeyOrAttr (v : PyValue) (k : String) : Option PyValue :=
  match v with
  | .dict kvs => dictGet kvs k
  | .pobj _ attrs => dictGet attrs k
  | _ => Option.none

/-- `get_key_or_attr(v, k, default)`. -/
def getKeyOrAttrD (v : PyValue) (k : String) (d : PyValue) : PyValue :=
  (getKeyOrAttr v k).getD d

/-- `copy_keys(v, keys)` (repository utility): project a dict/object onto
the listed keys, skipping keys it does not have. -/
def copy_keys (v : PyValue) (ks : List String) : List (String × PyValue) :=
  ks.filterMap (fun k => (getKeyOrAttr v k).map (fun x => (k, x)))

/-- One `{value, label}` choice of an enum field definition. -/
structure EnumChoice where
  value : String
  label : String
  deriving DecidableEq, Repr

/-- Field definitions (`BaseField` / `FieldDefinition` / `ObjectField` of the
custom-fields type system): a tagged variant over the declared field kinds.
`definition.type` of the source is the constructor tag; every definition
carries its stable id; leaf kinds carry their schema default value; `scalar`
stands for the remaining passthrough kinds (string, int, bool, date, ...). -/
inductive FieldDef where
  | enum (id : String) (choices : List EnumChoice) (default : PyValue)
  | cvss (id : String) (default : PyValue)
  | cwe (id : String) (default : PyValue)
  | user (id : String) (default : PyValue)
  | listF (id : String) (items : FieldDef)
  | objF (id : String) (fields : List FieldDef)
  | markdown (id : String) (default : PyValue)
  | scalar (id : String) (default : PyValue)

/-- The stable identifier of a field definition. -/
def FieldDef.fid : FieldDef → String
  | .enum i _ _ => i
  | .cvss i _ => i
  | .cwe i _ => i
  | .user i _ => i
  | .listF i _ => i
  | .objF i _ => i
  | .markdown i _ => i
  | .scalar i _ => i

/-- External collaborators of the formatting engine, embedded as total
functions.

* `cvssMetrics`, `cvssScoreStr`, `cvssLevel`, `cvssLevelNumber` — the CVSS
  engine (`reportcreator_api.pentests.cvss`), per the interface
  `vector_string -> metrics tree with final.score`, plus the score rounding /
  severity-level shaping done on its output.
* `cweTable` — `CweField.cwe_definitions()`: the static CWE lookup table.
* `userStore` — `PentestUser.objects.get(id=...)`: returns the user's
  attributes, or nothing when the id is unknown or malformed
  (`DoesNotExist` / `ValidationError`, both caught by the code).
* `setEnum` — the iteration order CPython produces for `set(xs)`: some
  duplicate-free enumeration of the distinct elements of `xs`.  The order is
  unspecified (hash-based), so it is a parameter of the model. -/
structure RenderEnv where
  cvssMetrics : PyValue → List (String × PyValue)
  cvssScoreStr : PyValue → String
  cvssLevel : PyValue → String
  cvssLevelNumber : PyValue → PyValue
  cweTable : List (List (String × PyValue))
  userStore : String → Option (List (String × PyValue))
  setEnum : List PyValue → List PyValue

/-- `setEnum` behaves like iterating a CPython set built from the given
list: no duplicates, and exactly the elements of the list. -/
def SetEnumValid (f : List PyValue → List PyValue) : Prop :=
  ∀ l, (f l).Nodup ∧ ∀ x, x ∈ f l ↔ x ∈ l

/-- The fixed role priority used when sorting a user's roles:
`{'lead': 0, 'pentester': 1, 'reviewer': 2}.get(r, 10)`. -/
def rolePriority (r : PyValue) : Nat :=
  if r = .str "lead" then 0
  else if r = .str "pentester" then 1
  else if r = .str "reviewer" then 2
  else 10

/-- The fixed contact-field subset copied by `format_user`. -/
def contactKeys : List String :=
  ["id", "name", "title_before", "first_name", "middle_name", "last_name",
   "title_after", "email", "phone", "mobile"]

/-- The record `format_user` projects: `u.user if isinstance(u,
ProjectMemberInfo) else u` (attribute access on a `ProjectMemberInfo`
without a `user` attribute would raise). -/
def format_user_base : PyValue → Except PyErr PyValue
  | .pobj cls attrs =>
      if cls = "ProjectMemberInfo" then
        match dictGet attrs "user" with
        | some w => Except.ok w
        | Option.none => Except.error .attributeError
      else Except.ok (.pobj cls attrs)
  | u => Except.ok u

/-- The inner `format_user` helper of `format_template_field_user`: falsy
values pass through as `None`; otherwise the record (for a
`ProjectMemberInfo`, its `user`) is projected onto `contactKeys` and a
`roles` entry is added: `sorted(set(filter(None, roles)), key=rolePriority)`.
Building the set raises `TypeError` when a truthy role element is
unhashable (a list or a dict); CPython's `sorted` is a stable sort,
embedded as `List.insertionSort`. -/
def format_user (env : RenderEnv) (u : PyValue) : Except PyErr PyValue :=
  if ¬ u.truthy then .ok .none
  else do
    let base ← format_user_base u
    let rolesElems ← (getKeyOrAttrD u "roles" (.list [])).pyIter
    if (rolesElems.filter PyValue.truthy).all PyValue.pyHashable then
      Except.ok (.dict (dictMerge (copy_keys base contactKeys)
        [("roles", .list (List.insertionSort
          (fun a b => rolePriority a ≤ rolePriority b)
          (env.setEnum (rolesElems.filter PyValue.truthy))))]))
    else Except.error .typeError

/-- `format_template_field_user`: dispatch on the shape of the stored value.
Materialized records (`ProjectMemberInfo`, `PentestUser`, dict, `None`) are
formatted directly; a bare id (string / UUID, both embedded as `.str`) is
matched against the candidate `members` list first and the user store
second; anything else yields `None`.  `get_key_or_attr(i, 'id')` is called
without an explicit default, which is `None` in the repository utility. -/
def format_template_field_user (env : RenderEnv) (members : List PyValue)
    (value : PyValue) : Except PyErr PyValue :=
  match value with
  | .pobj cls _ =>
      if cls = "ProjectMemberInfo" ∨ cls = "PentestUser" then format_user env value
      else .ok .none
  | .dict _ => format_user env value
  | .none => format_user env value
  | .str s =>
      match members.find?
          (fun i => (getKeyOrAttrD i "id" .none).pyToString = s) with
      | some u => format_user env u
      | Option.none =>
          match env.userStore s with
          | some attrs =>
              format_user env (.pobj "ProjectMemberInfo"
                [("user", .pobj "PentestUser" attrs), ("roles", .list [])])
          | Option.none => .ok .none
  | _ => .ok .none

/-- Embedding of a Python list comprehension whose body may raise: the
first raise aborts the whole comprehension. -/
def exMapM (f : α → Except PyErr β) : List α → Except PyErr (List β)
  | [] => .ok []
  | a :: as =>
      match f a with
      | .error e => .error e
      | .ok b =>
          match exMapM f as with
          | .error e => .error e
          | .ok bs => .ok (b :: bs)

/-- Placeholder for `str(uuid.uuid4())`.  The source draws a fresh random
identifier; every claim under verification depends only on the presence of
the `id` key, never on its contents, so the embedding uses a fixed string. -/
def uuid4_placeholder : String := "00000000-0000-4000-8000-000000000000"

mutual

/-- Modelled from the spec: `ensure_defined_structure` of
`reportcreator_api.pentests.customfields.utils` is not part of the sources
under verification.  Per the spec it reconciles a raw value against a field
definition with a fill-missing-with-schema-default policy, producing a
fully self-contained skeleton: a missing or `None` input (`Option.none`
here) becomes the schema default; list values keep their (recursively
reconciled) elements, non-list values of list fields become `[]`; object
values are reconciled field by field. -/
def ensure_defined_structure (v : Option PyValue) : FieldDef → PyValue
  | .enum _ _ df => v.getD df
  | .cvss _ df => v.getD df
  | .cwe _ df => v.getD df
  | .user _ df => v.getD df
  | .markdown _ df => v.getD df
  | .scalar _ df => v.getD df
  | .listF _ items =>
      match v with
      | some (.list xs) => .list (xs.map (fun x => ensure_defined_structure (some x) items))
      | _ => .list []
  | .objF _ fields =>
      match v with
      | some (.dict kvs) => .dict (ensure_fields kvs fields)
      | _ => .dict (ensure_fields [] fields)

/-- Modelled from the spec: the object case of `ensure_defined_structure`,
one declared field at a time. -/
def ensure_fields (kvs : List (String × PyValue)) : List FieldDef → List (String × PyValue)
  | [] => []
  | f :: rest => (f.fid, ensure_defined_structure (dictGet kvs f.fid) f) :: ensure_fields kvs rest

end

mutual

/-- `format_template_field(value, definition, members)`: dispatch on
`definition.type`.

* enum — the choice whose `value` equals the stored value, as a
  `{value, label}` dict, falling back to `EnumChoice(value='', label='')`;
* CVSS — the engine's metrics dict merged with the shaped
  `vector` / `score` / `level` / `level_number` entries;
* CWE — a null-defaulted base record merged with the first table entry
  whose `"CWE-" + id` key equals the stored value;
* user — `format_template_field_user`;
* list — a Python `for`-comprehension over the stored value (raising
  `TypeError` when it is not iterable), formatting each element with the
  item definition;
* object — `value | ensure_defined_structure(value, definition)` (raising
  `TypeError` when `value` is not a dict), then each declared field
  formatted in place (`require_id` defaults to false at this call site);
* anything else — passthrough. -/
def format_template_field (env : RenderEnv) (members : List PyValue)
    (value : PyValue) : FieldDef → Except PyErr PyValue
  | .enum _ choices _ =>
      let c := (choices.find? (fun c => value = .str c.value)).getD ⟨"", ""⟩
      .ok (.dict [("value", .str c.value), ("label", .str c.label)])
  | .cvss _ _ =>
      .ok (.dict (dictMerge (env.cvssMetrics value)
        [("vector", value), ("score", .str (env.cvssScoreStr value)),
         ("level", .str (env.cvssLevel value)),
         ("level_number", env.cvssLevelNumber value)]))
  | .cwe _ _ =>
      let entry := (env.cweTable.find?
        (fun c => value = .str ("CWE-" ++ (dictGetD c "id" .none).pyToString))).getD []
      .ok (.dict (dictMerge
        [("id", .none), ("name", .none), ("description", .none), ("value", value)]
        entry))
  | .user _ _ => format_template_field_user env members value
  | .listF _ items => do
      let es ← value.pyIter
      let fs ← exMapM (fun e => format_template_field env members e items) es
      .ok (.list fs)
  | .objF _ fields =>
      match value with
      | .dict kvs => do
          let out ← format_fields env members
            (dictMerge kvs (ensure_fields kvs fields)) fields
          .ok (.dict out)
      | _ => .error .typeError
  | .markdown _ _ => .ok value
  | .scalar _ _ => .ok value

/-- The field loop of `format_template_field_object`:
`out[f.id] = format_template_field(out.get(f.id), f, members)` for every
declared field, in declaration order. -/
def format_fields (env : RenderEnv) (members : List PyValue)
    (out : List (String × PyValue)) : List FieldDef → Except PyErr (List (String × PyValue))
  | [] => .ok out
  | f :: rest => do
      let w ← format_template_field env members (dictGetD out f.fid .none) f
      format_fields env members (dictSet out f.fid w) rest

end

/-- `format_template_field_object(value, definition, members, require_id)`:
`value | ensure_defined_structure(value, definition)` (a `TypeError` when
`value` is not a dict), each declared field formatted in place, and - when
`require_id` is set and no `id` key is present - a fresh `id`. -/
def format_template_field_object (env : RenderEnv) (members : List PyValue)
    (value : PyValue) (fields : List FieldDef) (require_id : Bool) :
    Except PyErr PyValue :=
  match value with
  | .dict kvs => do
      let out ← format_fields env members
        (dictMerge kvs (ensure_fields kvs fields)) fields
      let out := if require_id && !(dictHas out "id")
        then dictSet out "id" (.str uuid4_placeholder) else out
      .ok (.dict out)
  | _ => .error .typeError

instance {ε α : Type} [DecidableEq ε] [DecidableEq α] : DecidableEq (Except ε α) :=
  fun a b =>
  match a, b with
  | .ok x, .ok y =>
      if h : x = y then .isTrue (by rw [h]) else .isFalse (by simp [h])
  | .error x, .error y =>
      if h : x = y then .isTrue (by rw [h]) else .isFalse (by simp [h])
  | .ok _, .error _ => .isFalse (by simp)
  | .error _, .ok _ => .isFalse (by simp)

instance : IsTotal PyValue (fun a b => rolePriority a ≤ rolePriority b) :=
  ⟨fun a b => Nat.le_total (rolePriority a) (rolePriority b)⟩

instance : IsTrans PyValue (fun a b => rolePriority a ≤ rolePriority b) :=
  ⟨fun _ _ _ hab hbc => le_trans hab hbc⟩

/-- The project type schema: the declared report fields
(`all_report_fields_obj.fields`), the declared finding fields
(`finding_fields_obj.fields`), and the project-type finding ordering key. -/
structure ProjectType where
  report_fields : List FieldDef
  finding_fields : List FieldDef
  findingOrderKey : PyValue → Nat

/-- Modelled from the spec: `sort_findings` of
`reportcreator_api.pentests.customfields.sort` is not part of the sources
under verification.  Per the spec, findings are sorted by a
project-type-specific ordering function, and with
`override_finding_order=True` the output order equals the input order. -/
def sort_findings (pt : ProjectType) (override_finding_order : Bool)
    (findings : List PyValue) : List PyValue :=
  if override_finding_order then findings
  else List.insertionSort
    (fun a b => pt.findingOrderKey a ≤ pt.findingOrderKey b) findings

/-- A value that must be a Python list (`data.get('pentesters', []) + ...`
raises `TypeError` when the stored value is not a list). -/
def pyExpectList (v : PyValue) : Except PyErr (List PyValue) :=
  match v with
  | .list xs => .ok xs
  | _ => .error .typeError

/-- `x in xs` for a Python list. -/
def pyInList (xs : List PyValue) (x : PyValue) : Bool :=
  xs.any (fun y => decide (y = x))

/-- Comparison of the `(role priority, username)` sort keys of the member
pool.  CPython compares tuples lexicographically; the second components are
`u.get('username')` results.  In every reachable state they are all `None`
(formatted members have no `username` key), where CPython's tuple comparison
never invokes `None < None`; the `Option String` order chosen here extends
that reachable behavior totally. -/
def pentKeyLe (a b : Nat × Option String) : Bool :=
  if a.1 = b.1 then
    match a.2, b.2 with
    | Option.none, _ => true
    | some _, Option.none => false
    | some s, some t => decide (s ≤ t)
  else decide (a.1 ≤ b.1)

/-- The sort key of one member `u` in `format_template_data`:
`(0 if 'lead' in u.get('roles', []) else 1 if 'pentester' in ... else 2 if
'reviewer' in ... else 10, u.get('username'))`.  `u.get` raises
`AttributeError` when `u` is not a dict (a member that resolved to `None`);
`in` raises `TypeError` when the roles value is not a container. -/
def pentesterSortKey (u : PyValue) : Except PyErr (Nat × Option String) :=
  match u with
  | .dict kvs =>
      match dictGetD kvs "roles" (.list []) with
      | .list rs =>
          let prio :=
            if pyInList rs (.str "lead") then 0
            else if pyInList rs (.str "pentester") then 1
            else if pyInList rs (.str "reviewer") then 2
            else 10
          match dictGet kvs "username" with
          | Option.none => .ok (prio, Option.none)
          | some .none => .ok (prio, Option.none)
          | some (.str s) => .ok (prio, some s)
          | some _ => .error .typeError
      | _ => .error .typeError
  | _ => .error .attributeError

/-- One finding of `format_template_data`: the finding's dict part (`f if
isinstance(f, dict) else ` an empty dict) merged under its reconciled
structure, formatted as an object with `require_id=True`. -/
def format_finding (env : RenderEnv) (members : List PyValue) (pt : ProjectType)
    (f : PyValue) : Except PyErr PyValue :=
  format_template_field_object env members
    (.dict (dictMerge
      (match f with | .dict kvs => kvs | _ => [])
      (match ensure_defined_structure (some f) (.objF "" pt.finding_fields) with
        | .dict e => e
        | _ => [])))
    pt.finding_fields true

/-- One member of the pool paired with its sort key (computing the key can
raise, e.g. on a member that resolved to `None`). -/
def pentesterKeyed (u : PyValue) : Except PyErr ((Nat × Option String) × PyValue) := do
  let k ← pentesterSortKey u
  Except.ok (k, u)

/-- `format_template_data(data, project_type, imported_members,
override_finding_order)`:

1. member pool = every entry of `data['pentesters']` plus every imported
   member, each formatted by `format_template_field_user` with the imported
   members as candidate list;
2. `data['report']` = the report value reconciled against the report schema
   (fill-default) and formatted as an object with `require_id=True`;
3. `data['findings']` = each finding (its dict part merged under its
   reconciled structure) formatted with `require_id=True`, then passed to
   `sort_findings`;
4. `data['pentesters']` = the member pool sorted by
   `(role priority, u.get('username'))`. -/
def format_template_data (env : RenderEnv) (data : List (String × PyValue))
    (pt : ProjectType) (imported_members : List PyValue)
    (override_finding_order : Bool) : Except PyErr (List (String × PyValue)) := do
  let pentRaw ← pyExpectList (dictGetD data "pentesters" (.list []))
  let members ← exMapM (format_template_field_user env imported_members)
    (pentRaw ++ imported_members)
  let report ← format_template_field_object env members
    (ensure_defined_structure (some (dictGetD data "report" (.dict [])))
      (.objF "" pt.report_fields))
    pt.report_fields true
  let data := dictSet data "report" report
  let findingsRaw ← (dictGetD data "findings" (.list [])).pyIter
  let findings ← exMapM (format_finding env members pt) findingsRaw
  let data := dictSet data "findings"
    (.list (sort_findings pt override_finding_order findings))
  let keyed ← exMapM pentesterKeyed members
  let sortedMembers :=
    (List.insertionSort (fun a b => pentKeyLe a.1 b.1) keyed).map (·.2)
  let data := dictSet data "pentesters" (.list sortedMembers)
  .ok data

/-- Outcome of one run of `get_celery_result_async`:
the task's result, a re-raised task exception, a `TimeoutError`, or a
re-raised `asyncio.CancelledError`; a cancellation outcome records the
arguments `(terminate, wait)` that `task.revoke` was called with. -/
inductive CeleryOutcome where
  | ok (v : PyValue)
  | raised (e : PyErr)
  | timeoutError
  | cancelled (revokeArgs : Option (Bool × Bool))
  deriving DecidableEq, Repr

/-- The `if timeout and timezone.now() > start_time + timeout` check at
poll iteration `k` (time `100 * k` ms): `None` and a zero timedelta are
falsy and disable the check; expiry requires strictly `now > start +
timeout`. -/
def timeoutExpired (timeoutMs : Option Nat) (k : Nat) : Bool :=
  match timeoutMs with
  | some t => decide (t ≠ 0) && decide (100 * k > t)
  | Option.none => false

/-- Discrete-time embedding of `get_celery_result_async`.  Iteration `k` of
the poll loop runs at `100 * k` ms after `start_time`: the
`asyncio.sleep(0.1)` between polls advances time by exactly 100 ms and the
`task.ready()` / timeout checks are instantaneous.  `ready k` is what
`task.ready()` returns at iteration `k`; `result` is `task.result` (an
exception result is re-raised); `timeoutMs` is the timeout in milliseconds
(`None`, and a zero timedelta - both falsy in `if timeout and ...` -
disable the check, and expiry requires strictly `now > start + timeout`);
`cancelAt = some k` delivers `asyncio.CancelledError` during the `k`-th
sleep, upon which the code calls `task.revoke(terminate=True, wait=False)`,
swallows any exception from it (`revokeRaises` is deliberately unused, as
the `except Exception: pass` makes the revoke outcome irrelevant), and
re-raises.  `fuel` bounds the iterations the model unrolls; `Option.none`
means the loop was still running after `fuel` iterations. -/
def get_celery_result_async (ready : Nat → Bool) (result : Except PyErr PyValue)
    (timeoutMs : Option Nat) (cancelAt : Option Nat) (revokeRaises : Bool) :
    Nat → Nat → Option CeleryOutcome
  | 0, _ => Option.none
  | fuel + 1, k =>
      if ready k then
        some (match result with
          | .error e => .raised e
          | .ok v => .ok v)
      else if timeoutExpired timeoutMs k then
        some .timeoutError
      else if cancelAt = some k then
        some (.cancelled (some (true, false)))
      else
        get_celery_result_async ready result timeoutMs cancelAt revokeRaises fuel (k + 1)

/-- One diagnostic message of a render stage result: severity level,
message text and optional source-location pointer (type, id, name). -/
structure ErrorMessage where
  level : String
  message : String
  location : Option (String × String × String)
  deriving DecidableEq, Repr

/-- Timing-map lookup (stage name to elapsed seconds, seconds as `ℚ`). -/
def timGet (ts : List (String × ℚ)) (k : String) : Option ℚ :=
  (ts.find? (fun kv => kv.1 = k)).map (·.2)

/-- Timing-map membership. -/
def timHas (ts : List (String × ℚ)) (k : String) : Bool :=
  (timGet ts k).isSome

/-- Timing-map write with CPython dict semantics (update in place or append). -/
def timSet (ts : List (String × ℚ)) (k : String) (v : ℚ) : List (String × ℚ) :=
  if timHas ts k then ts.map (fun kv => if kv.1 = k then (k, v) else kv)
  else ts ++ [(k, v)]

/-- `sum(ts.values())`. -/
def timSum (ts : List (String × ℚ)) : ℚ :=
  ts.foldr (fun kv acc => kv.2 + acc) 0

/-- Timing-map key removal (`pop` leaves the other entries in order). -/
def timRemove (ts : List (String × ℚ)) (k : String) : List (String × ℚ) :=
  ts.filter (fun kv => kv.1 ≠ k)

/-- Right-biased timing-map merge (`|=` overwrites by key, keeps left
order, appends right-only keys). -/
def timMergeRight (a b : List (String × ℚ)) : List (String × ℚ) :=
  a.map (fun kv => (kv.1, ((timGet b kv.1).getD kv.2))) ++
    b.filter (fun kv => ¬ timHas a kv.1)

/-- Modelled from the spec: `RenderStageResult` of
`reportcreator_api.tasks.rendering.render_utils` is not part of the sources
under verification.  Per the spec it is an accumulator carrying optional
output bytes (here an opaque string), an ordered list of diagnostic
messages, a stage-name to elapsed-seconds map, and a free-form auxiliary
bag. -/
structure RenderStageResult where
  pdf : Option String
  messages : List ErrorMessage
  timings : List (String × ℚ)
  other : List (String × PyValue)
  deriving DecidableEq, Repr

/-- Modelled from the spec: the scoped `add_timing(name)` block records the
wall-clock duration of the enclosed work under `name`, accumulating onto
any earlier recording under the same name (`render_pdf` hands its
`collect_data` timing into `render_pdf_task`, which times another
`collect_data` block on the same accumulator). -/
def RenderStageResult.addTiming (r : RenderStageResult) (name : String)
    (elapsed : ℚ) : RenderStageResult :=
  RenderStageResult.mk r.pdf r.messages
    (timSet r.timings name (((timGet r.timings name).getD 0) + elapsed)) r.other

/-- Modelled from the spec: `|=` merge of two stage results — messages
concatenate in order, timings are overwritten by key (right side wins),
output bytes are taken from the right side when present, the auxiliary bag
is shallow-merged with the right side winning. -/
def RenderStageResult.merge (a b : RenderStageResult) : RenderStageResult :=
  RenderStageResult.mk
    (match b.pdf with | some p => some p | Option.none => a.pdf)
    (a.messages ++ b.messages)
    (timMergeRight a.timings b.timings)
    (dictMerge a.other b.other)

/-- Serialization of one diagnostic message for `to_dict()`. -/
def msgToDict (m : ErrorMessage) : PyValue :=
  .dict [("level", .str m.level), ("message", .str m.message),
    ("location", match m.location with
      | some loc => .dict [("type", .str loc.1), ("id", .str loc.2.1),
          ("name", .str loc.2.2)]
      | Option.none => .none)]

/-- Modelled from the spec: `RenderStageResult.to_dict()` produces the
transport-safe form of the accumulator — output bytes (or `None`),
messages, timings and the auxiliary bag; elapsed seconds get an opaque
string rendering. -/
def RenderStageResult.to_dict (r : RenderStageResult) : List (String × PyValue) :=
  [("pdf", match r.pdf with | some p => .str p | Option.none => .none),
   ("messages", .list (r.messages.map msgToDict)),
   ("timings", .dict (r.timings.map (fun kv => (kv.1, .str (toString kv.2))))),
   ("other", .dict r.other)]

/-- Python truthiness of the `pdf` member (`not res.pdf`): absent bytes and
empty bytes are both falsy. -/
def pdfTruthy (p : Option String) : Bool :=
  match p with
  | Option.none => false
  | some s => s ≠ ""

/-- `django.utils.dateparse.parse_datetime` applied to the popped auxiliary
value.  Django's helper hands its argument to `datetime.fromisoformat` and
a regex match, so a non-string input - in particular the `None` default
popped for a missing key - raises `TypeError`.  On a string it returns the
parsed timestamp, returns `None` when the string is not well formatted, or
raises `ValueError` when it is well formatted but not a valid datetime;
that per-string behaviour is the parameter `parseDT` (the embedding does
not reimplement ISO-8601 parsing). -/
def parse_datetime (parseDT : String → Except PyErr (Option ℚ)) :
    PyValue → Except PyErr (Option ℚ)
  | .str s => parseDT s
  | _ => .error .typeError

/-- The timing-reconciliation part of `render_pdf_task` (the part of the
function that runs once the worker result `res_pdf` is available; resource
collection and the worker call itself are external).  Following the source
order: start from the passed-in timings, time the `collect_data` block,
pre-initialize `timings['queue'] = 0.0`, remember
`timing_before_task_total = sum(res.timings.values())` and the submission
timestamp `before_task_start`, time the `task_total` block around the
worker call, merge in the worker result, pop `task_start_time` out of the
auxiliary bag and - when it parses - set
`timings['queue'] = task_start_time - before_task_start`, then fold the
popped `task_total` into `timings['other'] = max(0, task_total +
timing_before_task_total - sum(remaining timings))`, and finally stamp a
design location onto every message that has none.  `parse_datetime` below
embeds `django.utils.dateparse.parse_datetime`, which the source calls
unconditionally on the popped value and whose exceptions propagate out of
`render_pdf_task`, so the embedding returns `Except PyErr
RenderStageResult`; timestamps and durations are `ℚ` seconds. -/
def render_pdf_task (timings0 : List (String × ℚ)) (collectElapsed : ℚ)
    (before_task_start : ℚ) (taskElapsed : ℚ) (res_pdf : RenderStageResult)
    (parseDT : String → Except PyErr (Option ℚ)) (ptId ptName : String) :
    Except PyErr RenderStageResult :=
  let res := RenderStageResult.mk Option.none [] timings0 []
  let res := res.addTiming "collect_data" collectElapsed
  let res := RenderStageResult.mk res.pdf res.messages
    (timSet res.timings "queue" 0) res.other
  let timing_before_task_total := timSum res.timings
  let res := res.addTiming "task_total" taskElapsed
  let res := res.merge res_pdf
  let popped := dictPop res.other "task_start_time" .none
  let res := RenderStageResult.mk res.pdf res.messages res.timings popped.2
  match parse_datetime parseDT popped.1 with
  | .error e => .error e
  | .ok parsed =>
    let res := match parsed with
      | some ts => RenderStageResult.mk res.pdf res.messages
          (timSet res.timings "queue" (ts - before_task_start)) res.other
      | Option.none => res
    let task_total := (timGet res.timings "task_total").getD 0
    let rest := timRemove res.timings "task_total"
    let res := RenderStageResult.mk res.pdf res.messages
      (timSet rest "other"
        (max 0 (task_total + timing_before_task_total - timSum rest)))
      res.other
    Except.ok (RenderStageResult.mk res.pdf
      (res.messages.map (fun m => match m.location with
        | some _ => m
        | Option.none => ErrorMessage.mk m.level m.message
            (some ("design", ptId, ptName))))
      res.timings res.other)

/-- The output stage of `render_project_markdown_fields_to_html` after the
render pipeline returned `res`: when `res.pdf` is falsy the call returns
`res.to_dict()` directly; otherwise `format_output()` (markup parsing via
lxml plus fragment splicing into the separately serialized project, both
external, embedded as the fallible `formatOutput` argument) either supplies
the `{result, messages}` payload, or its exception is caught, an
error-level message is appended, and `res.to_dict()` of the accumulated
result is returned. -/
def render_project_markdown_fields_to_html (res : RenderStageResult)
    (formatOutput : Except PyErr (List (String × PyValue))) :
    List (String × PyValue) :=
  if ¬ pdfTruthy res.pdf then res.to_dict
  else
    match formatOutput with
    | .ok d => d
    | .error _ =>
        (RenderStageResult.mk res.pdf
          (res.messages ++
            [ErrorMessage.mk "error" "Error while formatting output" Option.none])
          res.timings res.other).to_dict

/-- The ids of a list of field definitions. -/
def fieldIds (fields : List FieldDef) : List String :=
  fields.map FieldDef.fid

mutual

/-- Schema invariant of the custom-fields type system: within every object
definition the declared field ids are distinct (each id is the key of the
field in a data tree), recursively. -/
def uniqueIds : FieldDef → Bool
  | .listF _ items => uniqueIds items
  | .objF _ fields => decide ((fieldIds fields).Nodup) && uniqueIdsList fields
  | _ => true

/-- `uniqueIds` for every definition in a list. -/
def uniqueIdsList : List FieldDef → Bool
  | [] => true
  | f :: fs => uniqueIds f && uniqueIdsList fs

end

/-- The records `format_user` can format without raising: falsy values pass
through; otherwise a `ProjectMemberInfo` needs its `user` attribute and the
`roles` value (when present) must be Python-iterable with every truthy
element hashable, for `set(filter(None, ...))`. -/
def userRecordOk (u : PyValue) : Bool :=
  !u.truthy ||
    ((match u with
      | .pobj cls attrs =>
          if cls = "ProjectMemberInfo" then (dictGet attrs "user").isSome else true
      | _ => true) &&
     (match (getKeyOrAttrD u "roles" (.list [])).pyIter with
      | .ok es => (es.filter PyValue.truthy).all PyValue.pyHashable
      | .error _ => false))

mutual

/-- The raw-value shapes on which the formatter does not raise: list-typed
values must be Python-iterable with recursively well-shaped elements;
object-typed values must be dicts whose reconciled
(`ensure_defined_structure`) children are recursively well-shaped (the
reconciliation guarantees container shapes but passes leaf values - in
particular user records - through untouched); user-typed values must be
formattable records; the remaining kinds are unconstrained. -/
def wellShaped (v : PyValue) : FieldDef → Bool
  | .user _ _ => userRecordOk v
  | .listF _ items =>
      match v.pyIter with
      | .ok es => es.all (fun e => wellShaped e items)
      | .error _ => false
  | .objF _ fields =>
      match v with
      | .dict kvs => wellShapedFields kvs fields
      | _ => false
  | _ => true

/-- Every declared field's reconciled value is well shaped. -/
def wellShapedFields (kvs : List (String × PyValue)) : List FieldDef → Bool
  | [] => true
  | f :: rest =>
      wellShaped (ensure_defined_structure (dictGet kvs f.fid) f) f &&
        wellShapedFields kvs rest

end

mutual

/-- A formatted value is schema-complete for its definition: object values
carry an entry for every declared field (recursively complete), list values
have recursively complete elements, leaf values are unconstrained. -/
def schemaComplete (v : PyValue) : FieldDef → Bool
  | .listF _ items =>
      match v with
      | .list xs => xs.all (fun x => schemaComplete x items)
      | _ => false
  | .objF _ fields =>
      match v with
      | .dict kvs => schemaCompleteFields kvs fields
      | _ => false
  | _ => true

/-- Every declared field is present (and recursively complete) in a dict. -/
def schemaCompleteFields (kvs : List (String × PyValue)) : List FieldDef → Bool
  | [] => true
  | f :: rest =>
      (match dictGet kvs f.fid with
        | some w => schemaComplete w f
        | Option.none => false) && schemaCompleteFields kvs rest

end

/-- A render environment with a pluggable set-enumeration order: trivial
CVSS engine, empty CWE table, empty user store. -/
def baseEnv (se : List PyValue → List PyValue) : RenderEnv :=
  ⟨fun _ => [], fun _ => "0.0", fun _ => "info", fun _ => .int 0, [],
   fun _ => Option.none, se⟩

/-- Concrete environment whose set enumeration keeps first occurrences. -/
def sampleEnv : RenderEnv := baseEnv (fun l => l.dedup)

/-- Concrete environment whose set enumeration reverses the distinct
elements — one of the iteration orders a hash-based CPython set may
produce. -/
def revEnv : RenderEnv := baseEnv (fun l => l.dedup.reverse)

theorem sampleEnv_setEnum_valid : SetEnumValid sampleEnv.setEnum := by
  intro l
  refine ⟨?_, fun x => ?_⟩
  · simpa [sampleEnv, baseEnv] using l.nodup_dedup
  · simp [sampleEnv, baseEnv, List.mem_dedup]

theorem revEnv_setEnum_valid : SetEnumValid revEnv.setEnum := by
  intro l
  refine ⟨?_, fun x => ?_⟩
  · simpa [revEnv, baseEnv] using List.nodup_reverse.mpr l.nodup_dedup
  · simp [revEnv, baseEnv, List.mem_dedup]

/-- C7: a failure while parsing the rendered markup or splicing HTML
fragments back into the serialized project is caught: the call returns the
serialized stage result - which has no `result` entry - with an
error-level `Error while formatting output` message appended after the
messages collected so far. -/
theorem C7_format_output_failure_contained (res : RenderStageResult)
    (e : PyErr) (h : pdfTruthy res.pdf = true) :
    dictHas (render_project_markdown_fields_to_html res (.error e)) "result" = false ∧
    dictGet (render_project_markdown_fields_to_html res (.error e)) "messages" =
      some (.list ((res.messages ++
        [ErrorMessage.mk "error" "Error while formatting output" Option.none]).map
          msgToDict)) := by
  unfold render_project_markdown_fields_to_html
  rw [h]
  simp [RenderStageResult.to_dict, dictHas, dictGet, List.find?]

/-- Witness for C7 at a concrete stage result. -/
theorem C7_format_output_failure_contained_witness :
    dictHas (render_project_markdown_fields_to_html
      (RenderStageResult.mk (some "html") [] [] []) (.error .typeError))
      "result" = false ∧
    dictGet (render_project_markdown_fields_to_html
      (RenderStageResult.mk (some "html") [] [] []) (.error .typeError))
      "messages" =
      some (.list (([ErrorMessage.mk "error" "Error while formatting output"
        Option.none]).map msgToDict)) :=
  C7_format_output_failure_contained
    (RenderStageResult.mk (some "html") [] [] []) .typeError (by decide)

theorem dictGet_cons (k' : String) (v' : PyValue) (ts : List (String × PyValue))
    (k : String) :
    dictGet ((k', v') :: ts) k = if k' = k then some v' else dictGet ts k := by
  by_cases h : k' = k <;> simp [dictGet, List.find?, h]

theorem timGet_cons (k' : String) (v' : ℚ) (ts : List (String × ℚ)) (k : String) :
    timGet ((k', v') :: ts) k = if k' = k then some v' else timGet ts k := by
  by_cases h : k' = k <;> simp [timGet, List.find?, h]

theorem timGet_append_right (ts : List (String × ℚ)) (k : String) (v : ℚ)
    (h : timHas ts k = false) : timGet (ts ++ [(k, v)]) k = some v := by
  induction ts with
  | nil => simp [timGet, List.find?]
  | cons hd tl ih =>
      rw [List.cons_append, timGet_cons]
      rw [timHas, timGet_cons] at h
      by_cases hk : hd.1 = k
      · simp [hk] at h
      · simp only [hk, if_false] at h ⊢
        exact ih (by rw [timHas]; simpa using h)

theorem timGet_map_set_self (ts : List (String × ℚ)) (k : String) (v : ℚ)
    (h : timHas ts k = true) :
    timGet (ts.map (fun kv => if kv.1 = k then (k, v) else kv)) k = some v := by
  induction ts with
  | nil => simp [timHas, timGet, List.find?] at h
  | cons hd tl ih =>
      by_cases hk : hd.1 = k
      · simp only [List.map_cons, hk, if_true]
        rw [timGet_cons]
        simp
      · simp only [List.map_cons, hk, if_false]
        rw [timGet_cons]
        simp only [hk, if_false]
        rw [timHas, timGet_cons] at h
        simp only [hk, if_false] at h
        exact ih (by rw [timHas]; simpa using h)

theorem timGet_timSet_self (ts : List (String × ℚ)) (k : String) (v : ℚ) :
    timGet (timSet ts k v) k = some v := by
  unfold timSet
  by_cases h : timHas ts k
  · rw [if_pos h]
    exact timGet_map_set_self ts k v h
  · rw [if_neg h]
    exact timGet_append_right ts k v (by simpa using h)

theorem timGet_map_set_ne (ts : List (String × ℚ)) (k k' : String) (v : ℚ)
    (h : k ≠ k') :
    timGet (ts.map (fun kv => if kv.1 = k then (k, v) else kv)) k' = timGet ts k' := by
  induction ts with
  | nil => simp [timGet, List.find?]
  | cons hd tl ih =>
      by_cases hk : hd.1 = k
      · simp only [List.map_cons, hk, if_true]
        rw [timGet_cons, timGet_cons]
        simp only [h, hk, if_false]
        exact ih
      · simp only [List.map_cons, hk, if_false]
        rw [timGet_cons, timGet_cons]
        by_cases hk' : hd.1 = k'
        · simp [hk']
        · simp only [hk', if_false]
          exact ih

theorem timGet_append_single_ne (ts : List (String × ℚ)) (k k' : String) (v : ℚ)
    (h : k ≠ k') : timGet (ts ++ [(k, v)]) k' = timGet ts k' := by
  induction ts with
  | nil => simp [timGet, List.find?, h]
  | cons hd tl ih =>
      rw [List.cons_append, timGet_cons, timGet_cons]
      by_cases hk' : hd.1 = k'
      · simp [hk']
      · simp only [hk', if_false]
        exact ih

theorem timGet_timSet_ne (ts : List (String × ℚ)) (k k' : String) (v : ℚ)
    (h : k ≠ k') : timGet (timSet ts k v) k' = timGet ts k' := by
  unfold timSet
  by_cases hh : timHas ts k
  · rw [if_pos hh]
    exact timGet_map_set_ne ts k k' v h
  · rw [if_neg hh]
    exact timGet_append_single_ne ts k k' v h

theorem timHas_iff_mem_keys (ts : List (String × ℚ)) (k : String) :
    timHas ts k = true ↔ k ∈ ts.map Prod.fst := by
  induction ts with
  | nil => simp [timHas, timGet, List.find?]
  | cons hd tl ih =>
      rw [timHas, timGet_cons]
      by_cases hk : hd.1 = k
      · simp [hk]
      · simp only [hk, if_false, List.map_cons, List.mem_cons]
        rw [timHas] at ih
        constructor
        · intro h
          exact Or.inr (ih.mp h)
        · rintro (h | h)
          · exact absurd h.symm hk
          · exact ih.mpr h

theorem timSum_cons (k : String) (v : ℚ) (ts : List (String × ℚ)) :
    timSum ((k, v) :: ts) = v + timSum ts := rfl

theorem timSum_append_single (ts : List (String × ℚ)) (k : String) (v : ℚ) :
    timSum (ts ++ [(k, v)]) = timSum ts + v := by
  induction ts with
  | nil => simp [timSum]
  | cons hd tl ih =>
      obtain ⟨k', v'⟩ := hd
      rw [List.cons_append, timSum_cons, timSum_cons, ih]
      ring

theorem map_set_id_of_not_has (ts : List (String × ℚ)) (k : String) (v : ℚ)
    (h : timHas ts k = false) :
    ts.map (fun kv => if kv.1 = k then (k, v) else kv) = ts := by
  induction ts with
  | nil => rfl
  | cons hd tl ih =>
      rw [timHas, timGet_cons] at h
      by_cases hk : hd.1 = k
      · simp [hk] at h
      · simp only [List.map_cons, hk, if_false]
        rw [ih (by rw [timHas]; simpa [hk] using h)]

theorem timSum_map_set (ts : List (String × ℚ)) (k : String) (v o : ℚ)
    (hnd : (ts.map Prod.fst).Nodup) (ho : timGet ts k = some o) :
    timSum (ts.map (fun kv => if kv.1 = k then (k, v) else kv)) =
      timSum ts - o + v := by
  induction ts with
  | nil => simp [timGet, List.find?] at ho
  | cons hd tl ih =>
      obtain ⟨k', v'⟩ := hd
      rw [timGet_cons] at ho
      simp only [List.map_cons, List.nodup_cons] at hnd
      rw [List.map_cons]
      by_cases hk : k' = k
      · subst hk
        simp only [if_pos rfl] at ho
        have htl : timHas tl k' = false := by
          rw [Bool.eq_false_iff]
          intro hc
          exact hnd.1 ((timHas_iff_mem_keys tl k').mp hc)
        have hv : v' = o := by simpa using ho
        have hstep : (if ((k', v') : String × ℚ).1 = k' then (k', v) else (k', v')) =
            (k', v) := by simp
        rw [hstep, map_set_id_of_not_has tl k' v htl, timSum_cons, timSum_cons, hv]
        ring
      · simp only [hk, if_false] at ho
        have hstep : (if ((k', v') : String × ℚ).1 = k then (k, v) else (k', v')) =
            (k', v') := by simp [hk]
        rw [hstep, timSum_cons, timSum_cons, ih hnd.2 ho]
        ring

theorem timSum_timSet (ts : List (String × ℚ)) (k : String) (v : ℚ)
    (hnd : (ts.map Prod.fst).Nodup) :
    timSum (timSet ts k v) = timSum ts - ((timGet ts k).getD 0) + v := by
  unfold timSet
  by_cases hh : timHas ts k
  · rw [if_pos hh]
    rw [timHas] at hh
    obtain ⟨o, ho⟩ := Option.isSome_iff_exists.mp hh
    rw [ho]
    simpa using timSum_map_set ts k v o hnd ho
  · rw [if_neg hh]
    rw [timHas] at hh
    have hnone : timGet ts k = Option.none :=
      Option.not_isSome_iff_eq_none.mp (by simpa using hh)
    rw [timSum_append_single, hnone]
    simp

theorem addTiming_timSum (r : RenderStageResult) (n : String) (e : ℚ)
    (hnd : (r.timings.map Prod.fst).Nodup) :
    timSum ((r.addTiming n e).timings) = timSum r.timings + e := by
  rw [RenderStageResult.addTiming]
  rw [timSum_timSet _ _ _ hnd]
  ring

theorem find?_filter_none (b : List (String × ℚ)) (p : String × ℚ → Bool)
    (k : String) (h : timHas b k = false) :
    timGet (b.filter p) k = Option.none := by
  induction b with
  | nil => simp [timGet, List.find?]
  | cons hd tl ih =>
      rw [timHas, timGet_cons] at h
      by_cases hk : hd.1 = k
      · simp [hk] at h
      · simp only [hk, if_false] at h
        rw [List.filter]
        cases p hd with
        | true =>
            rw [timGet_cons]
            simp only [hk, if_false]
            exact ih (by rw [timHas]; simpa using h)
        | false => exact ih (by rw [timHas]; simpa using h)

theorem timGet_append_cases (xs ys : List (String × ℚ)) (k : String) :
    timGet (xs ++ ys) k = if timHas xs k then timGet xs k else timGet ys k := by
  induction xs with
  | nil => simp [timGet, timHas, List.find?]
  | cons hd tl ih =>
      rw [List.cons_append, timGet_cons, timHas, timGet_cons]
      by_cases hk : hd.1 = k
      · simp [hk]
      · simp only [hk, if_false]
        rw [ih, timHas]

theorem timGet_map_mergeFn (b a : List (String × ℚ)) (k : String) :
    timGet (a.map (fun kv => (kv.1, (timGet b kv.1).getD kv.2))) k =
      (timGet a k).map (fun v => (timGet b k).getD v) := by
  induction a with
  | nil => simp [timGet, List.find?]
  | cons hd tl ih =>
      rw [List.map_cons, timGet_cons, timGet_cons]
      by_cases hk : hd.1 = k
      · simp [hk]
      · simp only [hk, if_false]
        exact ih

theorem timGet_timMergeRight_not_right (a b : List (String × ℚ)) (k : String)
    (h : timHas b k = false) :
    timGet (timMergeRight a b) k = timGet a k := by
  have hb : timGet b k = Option.none := by
    rw [timHas] at h
    exact Option.not_isSome_iff_eq_none.mp (by simp [h])
  unfold timMergeRight
  rw [timGet_append_cases]
  have hmap := timGet_map_mergeFn b a k
  have hhas : timHas (a.map (fun kv => (kv.1, (timGet b kv.1).getD kv.2))) k =
      timHas a k := by
    rw [timHas, timHas, hmap]
    cases timGet a k <;> rfl
  rw [hhas, hmap, hb]
  by_cases ha : timHas a k
  · rw [if_pos ha]
    cases timGet a k <;> rfl
  · rw [if_neg ha]
    rw [timHas] at ha
    have hA : timGet a k = Option.none :=
      Option.not_isSome_iff_eq_none.mp (by simpa using ha)
    rw [hA, find?_filter_none b _ k h]

theorem timGet_timRemove_ne (ts : List (String × ℚ)) (k k' : String)
    (h : k' ≠ k) : timGet (timRemove ts k) k' = timGet ts k' := by
  unfold timRemove
  induction ts with
  | nil => simp [timGet, List.find?]
  | cons hd tl ih =>
      rw [List.filter_cons, timGet_cons]
      by_cases hk : hd.1 = k
      · rw [if_neg (by simp [hk]), if_neg (by rw [hk]; exact Ne.symm h)]
        exact ih
      · rw [if_pos (by simp [hk]), timGet_cons]
        by_cases hk' : hd.1 = k'
        · simp [hk']
        · simp only [hk', if_false]
          exact ih

theorem timRemove_of_not_has (ts : List (String × ℚ)) (k : String)
    (h : timHas ts k = false) : timRemove ts k = ts := by
  unfold timRemove
  induction ts with
  | nil => rfl
  | cons hd tl ih =>
      rw [timHas, timGet_cons] at h
      by_cases hk : hd.1 = k
      · simp [hk] at h
      · simp only [hk, if_false] at h
        rw [List.filter_cons, if_pos (by simp [hk])]
        rw [ih (by rw [timHas]; simpa using h)]

theorem timRemove_append_single (ts : List (String × ℚ)) (k : String) (v : ℚ) :
    timRemove (ts ++ [(k, v)]) k = timRemove ts k := by
  unfold timRemove
  rw [List.filter_append]
  simp

theorem dictHas_filter_ne (kvs : List (String × PyValue)) (k : String) :
    dictHas (kvs.filter (fun kv => kv.1 ≠ k)) k = false := by
  induction kvs with
  | nil => simp [dictHas, dictGet, List.find?]
  | cons hd tl ih =>
      rw [List.filter_cons]
      by_cases hk : hd.1 = k
      · rw [if_neg (by simp [hk])]
        exact ih
      · rw [if_pos (by simp [hk]), dictHas, dictGet_cons]
        simp only [hk, if_false]
        exact ih

theorem dictMerge_nil_left (b : List (String × PyValue)) : dictMerge [] b = b := by
  unfold dictMerge
  simp [dictHas, dictGet, List.find?]

theorem timHas_timSet_ne (ts : List (String × ℚ)) (k k' : String) (v : ℚ)
    (h : k ≠ k') : timHas (timSet ts k v) k' = timHas ts k' := by
  rw [timHas, timHas, timGet_timSet_ne ts k k' v h]

theorem timHas_timRemove_ne (ts : List (String × ℚ)) (k k' : String)
    (h : k' ≠ k) : timHas (timRemove ts k) k' = timHas ts k' := by
  rw [timHas, timHas, timGet_timRemove_ne ts k k' h]

theorem timHas_timMergeRight_not_right (a b : List (String × ℚ)) (k : String)
    (h : timHas b k = false) : timHas (timMergeRight a b) k = timHas a k := by
  rw [timHas, timHas, timGet_timMergeRight_not_right a b k h]

theorem timSum_timSet_fresh (ts : List (String × ℚ)) (k : String) (v : ℚ)
    (h : timHas ts k = false) : timSum (timSet ts k v) = timSum ts + v := by
  unfold timSet
  rw [if_neg (by simp [h]), timSum_append_single]

theorem timRemove_timSet_self (ts : List (String × ℚ)) (k : String) (v : ℚ)
    (h : timHas ts k = false) : timRemove (timSet ts k v) k = ts := by
  unfold timSet
  rw [if_neg (by simp [h]), timRemove_append_single, timRemove_of_not_has ts k h]

theorem timGet_timSet_fresh_ne (ts : List (String × ℚ)) (k k' : String) (v : ℚ)
    (h : k ≠ k') : timGet (timSet ts k v) k' = timGet ts k' :=
  timGet_timSet_ne ts k k' v h

theorem timGet_eq_none_of_not_has (ts : List (String × ℚ)) (k : String)
    (h : timHas ts k = false) : timGet ts k = Option.none := by
  rw [timHas] at h
  exact Option.not_isSome_iff_eq_none.mp (by simp [h])

/-- C8: once the worker result is in, `timings['queue']` equals the
worker-reported start timestamp minus the timestamp taken just before
submission, and `timings['other']` equals `max(0, task_total elapsed +
sum of timings recorded before submission - sum of all other recorded
timing entries)`.  The hypotheses say the caller-supplied and
worker-reported timing maps are genuine dicts (distinct keys) that do not
themselves carry the `queue` / `task_total` / `other` bookkeeping stages,
and that the worker reported a parseable `task_start_time`. -/
theorem C8_queue_and_other_timings
    (timings0 : List (String × ℚ)) (collectElapsed before_task_start taskElapsed ts : ℚ)
    (res_pdf : RenderStageResult) (parseDT : String → Except PyErr (Option ℚ))
    (s : String) (ptId ptName : String)
    (hnd : (timings0.map Prod.fst).Nodup)
    (h1 : timHas timings0 "queue" = false)
    (h2 : timHas timings0 "task_total" = false)
    (h4 : timHas timings0 "other" = false)
    (h3 : timHas res_pdf.timings "task_total" = false)
    (h5 : timHas res_pdf.timings "other" = false)
    (hs : dictGetD res_pdf.other "task_start_time" PyValue.none = .str s)
    (hp : parseDT s = .ok (some ts)) :
    ∃ r, render_pdf_task timings0 collectElapsed before_task_start taskElapsed
        res_pdf parseDT ptId ptName = .ok r ∧
      timGet r.timings "queue" = some (ts - before_task_start) ∧
      timGet r.timings "other" =
        some (max 0 (taskElapsed + (timSum timings0 + collectElapsed) -
          timSum (timRemove r.timings "other"))) := by
  unfold render_pdf_task
  dsimp only [RenderStageResult.addTiming, RenderStageResult.merge, dictPop]
  rw [dictMerge_nil_left, hs]
  simp only [parse_datetime]
  rw [hp]
  dsimp only
  have hQt : timGet (timSet (timSet timings0 "collect_data"
      ((timGet timings0 "collect_data").getD 0 + collectElapsed)) "queue" 0)
      "task_total" = Option.none := by
    rw [timGet_timSet_ne _ _ _ _ (by decide), timGet_timSet_ne _ _ _ _ (by decide)]
    exact timGet_eq_none_of_not_has _ _ h2
  have hQo : timHas (timSet (timSet timings0 "collect_data"
      ((timGet timings0 "collect_data").getD 0 + collectElapsed)) "queue" 0)
      "other" = false := by
    rw [timHas_timSet_ne _ _ _ _ (by decide), timHas_timSet_ne _ _ _ _ (by decide)]
    exact h4
  have hB : timSum (timSet (timSet timings0 "collect_data"
      ((timGet timings0 "collect_data").getD 0 + collectElapsed)) "queue" 0) =
      timSum timings0 + collectElapsed := by
    rw [timSum_timSet_fresh _ _ _ (by
      rw [timHas_timSet_ne _ _ _ _ (by decide)]
      exact h1)]
    rw [timSum_timSet _ _ _ hnd]
    ring
  set tsQ := timSet (timSet timings0 "collect_data"
    ((timGet timings0 "collect_data").getD 0 + collectElapsed)) "queue" 0 with htsQ
  simp only [hQt, Option.getD_none, zero_add]
  have hTt : timGet (timSet tsQ "task_total" taskElapsed) "task_total" =
      some taskElapsed := timGet_timSet_self _ _ _
  have hTo : timHas (timSet tsQ "task_total" taskElapsed) "other" = false := by
    rw [timHas_timSet_ne _ _ _ _ (by decide)]
    exact hQo
  have hMt : timGet (timMergeRight (timSet tsQ "task_total" taskElapsed)
      res_pdf.timings) "task_total" = some taskElapsed := by
    rw [timGet_timMergeRight_not_right _ _ _ h3]
    exact hTt
  have hMo : timHas (timMergeRight (timSet tsQ "task_total" taskElapsed)
      res_pdf.timings) "other" = false := by
    rw [timHas_timMergeRight_not_right _ _ _ h5]
    exact hTo
  have hPt : timGet (timSet (timMergeRight (timSet tsQ "task_total" taskElapsed)
      res_pdf.timings) "queue" (ts - before_task_start)) "task_total" =
      some taskElapsed := by
    rw [timGet_timSet_ne _ _ _ _ (by decide)]
    exact hMt
  have hPq : timGet (timSet (timMergeRight (timSet tsQ "task_total" taskElapsed)
      res_pdf.timings) "queue" (ts - before_task_start)) "queue" =
      some (ts - before_task_start) := timGet_timSet_self _ _ _
  have hPo : timHas (timSet (timMergeRight (timSet tsQ "task_total" taskElapsed)
      res_pdf.timings) "queue" (ts - before_task_start)) "other" = false := by
    rw [timHas_timSet_ne _ _ _ _ (by decide)]
    exact hMo
  have hRq : timGet (timRemove (timSet (timMergeRight
      (timSet tsQ "task_total" taskElapsed) res_pdf.timings) "queue"
      (ts - before_task_start)) "task_total") "queue" =
      some (ts - before_task_start) := by
    rw [timGet_timRemove_ne _ _ _ (by decide)]
    exact hPq
  have hRo : timHas (timRemove (timSet (timMergeRight
      (timSet tsQ "task_total" taskElapsed) res_pdf.timings) "queue"
      (ts - before_task_start)) "task_total") "other" = false := by
    rw [timHas_timRemove_ne _ _ _ (by decide)]
    exact hPo
  simp only [hPt, Option.getD_some]
  refine ⟨_, rfl, ?_, ?_⟩
  · dsimp only
    rw [timGet_timSet_ne _ _ _ _ (by decide)]
    exact hRq
  · dsimp only
    rw [timGet_timSet_self, timRemove_timSet_self _ _ _ hRo, hB]

/-- Witness for C8 at concrete timings. -/
theorem C8_queue_and_other_timings_witness :
    ∃ r, render_pdf_task [("collect_data", (1:ℚ))] 2 10 5
        (RenderStageResult.mk Option.none [] [("render", (3:ℚ))]
          [("task_start_time", PyValue.str "t")])
        (fun s => if s = "t" then Except.ok (some (12:ℚ))
          else Except.ok Option.none)
        "pt" "Demo" = .ok r ∧
      timGet r.timings "queue" = some ((12:ℚ) - 10) ∧
      timGet r.timings "other" =
        some (max 0 ((5:ℚ) + (timSum [("collect_data", (1:ℚ))] + 2) -
          timSum (timRemove r.timings "other"))) :=
  C8_queue_and_other_timings [("collect_data", (1:ℚ))] 2 10 5 12
    (RenderStageResult.mk Option.none [] [("render", (3:ℚ))]
      [("task_start_time", PyValue.str "t")])
    (fun s => if s = "t" then Except.ok (some (12:ℚ))
      else Except.ok Option.none)
    "t" "pt" "Demo" (by decide) (by decide) (by decide) (by decide) (by decide)
    (by decide) (by decide) (by decide)

/-- C10 (amended): when the worker's auxiliary data carries a
`task_start_time` entry that is a string on which `parse_datetime` finds no
timestamp (a not-well-formatted value, where Django's helper returns
`None`), `render_pdf_task` succeeds and the `queue` timing keeps its
pre-initialized value 0.0 (provided the worker does not itself report a
`queue` stage that the merge would bring in), and the `task_start_time` key
is removed from the auxiliary data of every successful run.  A missing key
(the popped `None` reaches `parse_datetime`, `TypeError`) or a
well-formatted but invalid value (`ValueError`) instead makes the task
raise - see the counterexample. -/
theorem C10_queue_stays_zero_and_key_removed
    (timings0 : List (String × ℚ)) (collectElapsed before_task_start taskElapsed : ℚ)
    (res_pdf : RenderStageResult) (parseDT : String → Except PyErr (Option ℚ))
    (s : String) (ptId ptName : String)
    (hq5 : timHas res_pdf.timings "queue" = false)
    (hs : dictGetD res_pdf.other "task_start_time" PyValue.none = .str s)
    (hp : parseDT s = .ok Option.none) :
    (∃ r, render_pdf_task timings0 collectElapsed before_task_start taskElapsed
        res_pdf parseDT ptId ptName = .ok r ∧
      timGet r.timings "queue" = some 0 ∧
      dictHas r.other "task_start_time" = false) ∧
    (∀ (parseDT2 : String → Except PyErr (Option ℚ)) (r2 : RenderStageResult),
      render_pdf_task timings0 collectElapsed before_task_start taskElapsed
        res_pdf parseDT2 ptId ptName = .ok r2 →
      dictHas r2.other "task_start_time" = false) := by
  constructor
  · unfold render_pdf_task
    dsimp only [RenderStageResult.addTiming, RenderStageResult.merge, dictPop]
    rw [dictMerge_nil_left, hs]
    simp only [parse_datetime]
    rw [hp]
    dsimp only
    refine ⟨_, rfl, ?_, ?_⟩
    · dsimp only
      rw [timGet_timSet_ne _ _ _ _ (by decide),
        timGet_timRemove_ne _ _ _ (by decide),
        timGet_timMergeRight_not_right _ _ _ hq5,
        timGet_timSet_ne _ _ _ _ (by decide),
        timGet_timSet_self]
    · dsimp only
      exact dictHas_filter_ne _ _
  · intro parseDT2 r2 h2
    unfold render_pdf_task at h2
    dsimp only [RenderStageResult.addTiming, RenderStageResult.merge, dictPop] at h2
    rw [dictMerge_nil_left] at h2
    cases hcase : parse_datetime parseDT2
        (dictGetD res_pdf.other "task_start_time" PyValue.none) with
    | error e =>
        rw [hcase] at h2
        exact absurd h2 (by simp)
    | ok parsed =>
        rw [hcase] at h2
        cases parsed with
        | none =>
            dsimp only at h2
            injection h2 with h3
            subst h3
            dsimp only
            exact dictHas_filter_ne _ _
        | some ts2 =>
            dsimp only at h2
            injection h2 with h3
            subst h3
            dsimp only
            exact dictHas_filter_ne _ _

/-- Witness for the amended C10 at concrete timings: the worker reports an
unparseable string `task_start_time`. -/
theorem C10_queue_stays_zero_and_key_removed_witness :
    (∃ r, render_pdf_task [("collect_data", (1:ℚ))] 2 10 5
        (RenderStageResult.mk Option.none [] [("render", (3:ℚ))]
          [("task_start_time", PyValue.str "garbled")])
        (fun _ => Except.ok Option.none) "pt" "Demo" = .ok r ∧
      timGet r.timings "queue" = some 0 ∧
      dictHas r.other "task_start_time" = false) ∧
    (∀ (parseDT2 : String → Except PyErr (Option ℚ)) (r2 : RenderStageResult),
      render_pdf_task [("collect_data", (1:ℚ))] 2 10 5
        (RenderStageResult.mk Option.none [] [("render", (3:ℚ))]
          [("task_start_time", PyValue.str "garbled")])
        parseDT2 "pt" "Demo" = .ok r2 →
      dictHas r2.other "task_start_time" = false) :=
  C10_queue_stays_zero_and_key_removed [("collect_data", (1:ℚ))] 2 10 5
    (RenderStageResult.mk Option.none [] [("render", (3:ℚ))]
      [("task_start_time", PyValue.str "garbled")])
    (fun _ => Except.ok Option.none) "garbled" "pt" "Demo"
    (by decide) (by decide) (by decide)

/-- Counterexample for C10 as stated: when the auxiliary data has no
`task_start_time` key at all - an instance of "no parseable
task_start_time entry" - `res.other.pop('task_start_time', None)` yields
`None`, `dateparse.parse_datetime(None)` raises `TypeError`, and
`render_pdf_task` propagates the exception instead of returning a result
with `queue` 0.0; this holds for every possible string-parsing
behaviour. -/
theorem C10_missing_key_raises_counterexample :
    dictHas (RenderStageResult.mk Option.none [] [("render", (3:ℚ))] []).other
      "task_start_time" = false ∧
    ∀ parseDT : String → Except PyErr (Option ℚ),
      render_pdf_task [("collect_data", (1:ℚ))] 2 10 5
        (RenderStageResult.mk Option.none [] [("render", (3:ℚ))] [])
        parseDT "pt" "Demo" = .error PyErr.typeError :=
  ⟨rfl, fun _ => rfl⟩

theorem celery_timeout_loop (ready : Nat → Bool) (result : Except PyErr PyValue)
    (t : Nat) (rv : Bool) (ht : t ≠ 0) :
    ∀ fuel k, (∀ j, j ≤ t / 100 + 1 → ready j = false) →
      k ≤ t / 100 + 1 → t / 100 + 1 - k < fuel →
      get_celery_result_async ready result (some t) Option.none rv fuel k =
        some CeleryOutcome.timeoutError := by
  intro fuel
  induction fuel with
  | zero => intro k _ _ hf; omega
  | succ n ih =>
      intro k hready hk hf
      rw [get_celery_result_async.eq_def]
      dsimp only
      rw [hready k hk]
      simp only [Bool.false_eq_true, if_false]
      by_cases hK : k = t / 100 + 1
      · have hgt : 100 * k > t := by
          have hdm : t / 100 * 100 ≤ t := Nat.div_mul_le_self t 100
          omega
        simp [timeoutExpired, ht, hgt]
      · have hle : k ≤ t / 100 := by omega
        have hngt : ¬ (100 * k > t) := by
          have h100 : 100 * k ≤ 100 * (t / 100) := Nat.mul_le_mul_left 100 hle
          have hdm : 100 * (t / 100) ≤ t := Nat.mul_div_le t 100
          omega
        rw [if_neg (by simp [timeoutExpired, hngt]), if_neg (by simp)]
        exact ih (k + 1) hready (by omega) (by omega)

theorem celery_cancel_loop (ready : Nat → Bool) (result : Except PyErr PyValue)
    (timeoutMs : Option Nat) (c : Nat) (rv : Bool) :
    ∀ fuel k, (∀ j, j ≤ c → ready j = false) →
      (∀ j, j ≤ c → timeoutExpired timeoutMs j = false) →
      k ≤ c → c - k < fuel →
      get_celery_result_async ready result timeoutMs (some c) rv fuel k =
        some (CeleryOutcome.cancelled (some (true, false))) := by
  intro fuel
  induction fuel with
  | zero => intro k _ _ _ hf; omega
  | succ n ih =>
      intro k hready htim hk hf
      rw [get_celery_result_async.eq_def]
      dsimp only
      rw [hready k hk]
      simp only [Bool.false_eq_true, if_false]
      rw [htim k hk]
      simp only [Bool.false_eq_true, if_false]
      by_cases hc : k = c
      · rw [if_pos (by rw [hc])]
      · rw [if_neg (by simp [Ne.symm hc])]
        exact ih (k + 1) hready htim (by omega) (by omega)

/-- C6: in queued mode the poll loop checks readiness at a fixed 100 ms
interval (one iteration per 100 ms in the discrete-time model) and raises
`TimeoutError` once `timeout` has strictly elapsed without the task
becoming ready; a cancellation delivered during the poll yields the
re-raised cancellation after calling `task.revoke(terminate=True,
wait=False)`, whatever the revoke attempt itself does (`rv` is the
revoke-raises flag and the outcome does not depend on it). -/
theorem C6_poll_timeout_and_cancellation :
    (∀ (ready : Nat → Bool) (result : Except PyErr PyValue) (t : Nat) (rv : Bool)
        (fuel : Nat), t ≠ 0 →
      (∀ j, j ≤ t / 100 + 1 → ready j = false) → t / 100 + 1 < fuel →
      get_celery_result_async ready result (some t) Option.none rv fuel 0 =
        some CeleryOutcome.timeoutError) ∧
    (∀ (ready : Nat → Bool) (result : Except PyErr PyValue)
        (timeoutMs : Option Nat) (c : Nat) (rv : Bool) (fuel : Nat),
      (∀ j, j ≤ c → ready j = false) →
      (∀ j, j ≤ c → timeoutExpired timeoutMs j = false) → c < fuel →
      get_celery_result_async ready result timeoutMs (some c) rv fuel 0 =
        some (CeleryOutcome.cancelled (some (true, false)))) := by
  constructor
  · intro ready result t rv fuel ht hready hf
    exact celery_timeout_loop ready result t rv ht fuel 0 hready (by omega) (by omega)
  · intro ready result timeoutMs c rv fuel hready htim hf
    exact celery_cancel_loop ready result timeoutMs c rv fuel 0 hready htim
      (by omega) (by omega)

/-- Witness for C6: a 250 ms timeout expires at the third poll of a
never-ready task; a cancellation during the third sleep of an untimed poll
revokes with `terminate=True, wait=False` and re-raises. -/
theorem C6_poll_timeout_and_cancellation_witness :
    get_celery_result_async (fun _ => false) (.ok .none) (some 250) Option.none
      true 5 0 = some CeleryOutcome.timeoutError ∧
    get_celery_result_async (fun _ => false) (.ok .none) Option.none (some 2)
      true 5 0 = some (CeleryOutcome.cancelled (some (true, false))) :=
  ⟨C6_poll_timeout_and_cancellation.1 (fun _ => false) (.ok .none) 250 true 5
      (by decide) (fun _ _ => rfl) (by decide),
   C6_poll_timeout_and_cancellation.2 (fun _ => false) (.ok .none) Option.none 2
      true 5 (fun _ _ => rfl) (fun _ _ => rfl) (by decide)⟩

theorem dictGet_append_cases (xs ys : List (String × PyValue)) (k : String) :
    dictGet (xs ++ ys) k = if dictHas xs k then dictGet xs k else dictGet ys k := by
  induction xs with
  | nil => simp [dictGet, dictHas, List.find?]
  | cons hd tl ih =>
      rw [List.cons_append, dictGet_cons, dictHas, dictGet_cons]
      by_cases hk : hd.1 = k
      · simp [hk]
      · simp only [hk, if_false]
        rw [ih, dictHas]

theorem dictGet_map_mergeFn (b a : List (String × PyValue)) (k : String) :
    dictGet (a.map (fun kv => (kv.1, dictGetD b kv.1 kv.2))) k =
      (dictGet a k).map (fun v => dictGetD b k v) := by
  induction a with
  | nil => simp [dictGet, List.find?]
  | cons hd tl ih =>
      rw [List.map_cons, dictGet_cons, dictGet_cons]
      by_cases hk : hd.1 = k
      · simp [hk]
      · simp only [hk, if_false]
        exact ih

theorem dictGet_filter_keep (b : List (String × PyValue))
    (p : String × PyValue → Bool) (k : String)
    (hp : ∀ kv, kv.1 = k → p kv = true) :
    dictGet (b.filter p) k = dictGet b k := by
  induction b with
  | nil => simp
  | cons hd tl ih =>
      rw [List.filter_cons]
      by_cases hk : hd.1 = k
      · rw [if_pos (hp hd hk), dictGet_cons, dictGet_cons]
        simp [hk]
      · by_cases hph : p hd
        · rw [if_pos hph, dictGet_cons, dictGet_cons]
          simp only [hk, if_false]
          exact ih
        · rw [if_neg hph, dictGet_cons]
          simp only [hk, if_false]
          exact ih

theorem dictGet_dictMerge_right (a b : List (String × PyValue)) (k : String)
    (h : dictHas b k = true) :
    dictGet (dictMerge a b) k = dictGet b k := by
  unfold dictMerge
  rw [dictGet_append_cases]
  have hmap := dictGet_map_mergeFn b a k
  have hhas : dictHas (a.map (fun kv => (kv.1, dictGetD b kv.1 kv.2))) k =
      dictHas a k := by
    rw [dictHas, dictHas, hmap]
    cases dictGet a k <;> rfl
  rw [hhas, hmap]
  obtain ⟨w, hw⟩ := Option.isSome_iff_exists.mp (by rw [dictHas] at h; exact h)
  by_cases ha : dictHas a k
  · rw [if_pos ha]
    rw [dictHas] at ha
    obtain ⟨v, hv⟩ := Option.isSome_iff_exists.mp ha
    rw [hv, hw]
    simp [dictGetD, hw]
  · rw [if_neg ha]
    exact dictGet_filter_keep b _ k (fun kv hkv => by simp [hkv, ha])

theorem dictMerge_nil_right (a : List (String × PyValue)) : dictMerge a [] = a := by
  unfold dictMerge
  simp [dictGetD, dictGet, List.find?]

theorem dictGet_roles_singleton (A : List (String × PyValue)) (x : PyValue) :
    dictGet (dictMerge A [("roles", x)]) "roles" = some x := by
  rw [dictGet_dictMerge_right A _ _ (by simp [dictHas, dictGet, List.find?])]
  simp [dictGet, List.find?]

theorem format_user_shape (env : RenderEnv) (u out : PyValue)
    (h : format_user env u = .ok out) :
    out = .none ∨ ∃ (base : PyValue) (rolesElems : List PyValue),
      out = .dict (dictMerge (copy_keys base contactKeys)
        [("roles", .list (List.insertionSort
          (fun a b => rolePriority a ≤ rolePriority b)
          (env.setEnum (rolesElems.filter PyValue.truthy))))]) := by
  unfold format_user at h
  by_cases ht : u.truthy
  · rw [if_neg (not_not_intro ht)] at h
    simp only [bind, Except.bind] at h
    cases hbase : format_user_base u with
    | error e => rw [hbase] at h; exact absurd h (by simp)
    | ok base =>
        rw [hbase] at h
        cases hiter : (getKeyOrAttrD u "roles" (.list [])).pyIter with
        | error e => rw [hiter] at h; exact absurd h (by simp)
        | ok es =>
            rw [hiter] at h
            dsimp only at h
            by_cases hh : (es.filter PyValue.truthy).all PyValue.pyHashable = true
            · rw [if_pos hh] at h
              right
              exact ⟨base, es, by simpa using h.symm⟩
            · rw [if_neg hh] at h
              exact absurd h (by simp)
  · rw [if_pos (by simpa using ht)] at h
    left
    simpa using h.symm

theorem format_template_field_user_shape (env : RenderEnv) (members : List PyValue)
    (value out : PyValue)
    (h : format_template_field_user env members value = .ok out) :
    out = .none ∨ ∃ (base : PyValue) (rolesElems : List PyValue),
      out = .dict (dictMerge (copy_keys base contactKeys)
        [("roles", .list (List.insertionSort
          (fun a b => rolePriority a ≤ rolePriority b)
          (env.setEnum (rolesElems.filter PyValue.truthy))))]) := by
  unfold format_template_field_user at h
  cases value <;> dsimp only at h
  case pobj cls attrs =>
      by_cases hcls : cls = "ProjectMemberInfo" ∨ cls = "PentestUser"
      · rw [if_pos hcls] at h
        exact format_user_shape env _ out h
      · rw [if_neg hcls] at h
        left
        simpa using h.symm
  case dict kvs => exact format_user_shape env _ out h
  case none => exact format_user_shape env _ out h
  case str s =>
      cases hf : members.find? (fun i => (getKeyOrAttrD i "id" .none).pyToString = s) with
      | some u =>
          rw [hf] at h
          exact format_user_shape env _ out h
      | none =>
          rw [hf] at h
          cases hs : env.userStore s with
          | some attrs =>
              rw [hs] at h
              exact format_user_shape env _ out h
          | none =>
              rw [hs] at h
              left
              simpa using h.symm
  case bool b => left; simpa using h.symm
  case int n => left; simpa using h.symm
  case list xs => left; simpa using h.symm

/-- C3 (amended): the `roles` list of every user record resolved by
`format_template_field_user` is sorted by the fixed priority lead=0,
pentester=1, reviewer=2, other=10; roles of equal priority keep the
iteration order of the CPython set they came from (the stable sort
preserves it), which is hash-dependent and not guaranteed to be
lexicographic. -/
theorem C3_roles_sorted_by_priority (env : RenderEnv) (members : List PyValue)
    (value out : PyValue) (rolesv : List PyValue)
    (h : format_template_field_user env members value = .ok out)
    (hr : getKeyOrAttr out "roles" = some (.list rolesv)) :
    rolesv.Pairwise (fun a b => rolePriority a ≤ rolePriority b) := by
  rcases format_template_field_user_shape env members value out h with
    hnone | ⟨base, es, hout⟩
  · rw [hnone] at hr
    simp [getKeyOrAttr] at hr
  · rw [hout] at hr
    simp only [getKeyOrAttr] at hr
    rw [dictGet_roles_singleton] at hr
    have hv : rolesv = List.insertionSort
        (fun a b => rolePriority a ≤ rolePriority b)
        (env.setEnum (es.filter PyValue.truthy)) := by
      have := hr
      simp only [Option.some.injEq, PyValue.list.injEq] at this
      exact this.symm
    rw [hv]
    exact List.sorted_insertionSort _ _

/-- Witness for the amended C3: a record carrying roles `reviewer` and
`lead` comes back with `lead` sorted first. -/
theorem C3_roles_sorted_by_priority_witness :
    List.Pairwise (fun a b => rolePriority a ≤ rolePriority b)
      [PyValue.str "lead", PyValue.str "reviewer"] :=
  C3_roles_sorted_by_priority sampleEnv []
    (.dict [("id", .str "u1"), ("roles", .list [.str "reviewer", .str "lead"])])
    (.dict [("id", .str "u1"),
      ("roles", .list [.str "lead", .str "reviewer"])])
    [PyValue.str "lead", PyValue.str "reviewer"]
    (by decide) (by decide)

/-- Counterexample for C3 as stated: under a hash order that enumerates the
set `{alpha, beta}` as `[beta, alpha]` (a legitimate CPython set iteration
order, here produced by a set-valid enumeration function), the two
equal-priority roles come back as `[beta, alpha]`, which is not in natural
lexicographic order. -/
theorem C3_ties_not_lexicographic_counterexample :
    SetEnumValid revEnv.setEnum ∧
    format_template_field_user revEnv []
      (.dict [("id", .str "u1"), ("name", .str "N"),
        ("roles", .list [.str "alpha", .str "beta"])]) =
      .ok (.dict [("id", .str "u1"), ("name", .str "N"),
        ("roles", .list [.str "beta", .str "alpha"])]) ∧
    rolePriority (.str "beta") = rolePriority (.str "alpha") ∧
    ¬ List.Pairwise (fun a b : PyValue => a.pyToString ≤ b.pyToString)
      [PyValue.str "beta", PyValue.str "alpha"] :=
  ⟨revEnv_setEnum_valid, by decide, by decide, by
    intro hp
    have hle : ("beta" : String) ≤ "alpha" := by
      have hc := List.pairwise_cons.mp hp
      simpa [PyValue.pyToString] using hc.1 (PyValue.str "alpha") (by simp)
    have hlt : ("alpha" : String) < "beta" :=
      String.lt_iff_toList_lt.mpr (by decide)
    exact absurd hle (not_le.mpr hlt)⟩

/-- C9: the `roles` list of every resolved user record has no duplicates
and no falsy entries: `filter(None, ...)` drops empty strings and
`set(...)` deduplicates before sorting. -/
theorem C9_roles_distinct_and_truthy (env : RenderEnv) (members : List PyValue)
    (value out : PyValue) (rolesv : List PyValue)
    (hval : SetEnumValid env.setEnum)
    (h : format_template_field_user env members value = .ok out)
    (hr : getKeyOrAttr out "roles" = some (.list rolesv)) :
    rolesv.Nodup ∧ ∀ r ∈ rolesv, r.truthy = true := by
  rcases format_template_field_user_shape env members value out h with
    hnone | ⟨base, es, hout⟩
  · rw [hnone] at hr
    simp [getKeyOrAttr] at hr
  · rw [hout] at hr
    simp only [getKeyOrAttr] at hr
    rw [dictGet_roles_singleton] at hr
    have hv : rolesv = List.insertionSort
        (fun a b => rolePriority a ≤ rolePriority b)
        (env.setEnum (es.filter PyValue.truthy)) := by
      have := hr
      simp only [Option.some.injEq, PyValue.list.injEq] at this
      exact this.symm
    have hperm : List.Perm (List.insertionSort
        (fun a b => rolePriority a ≤ rolePriority b)
        (env.setEnum (es.filter PyValue.truthy)))
        (env.setEnum (es.filter PyValue.truthy)) :=
      List.perm_insertionSort _ _
    constructor
    · rw [hv]
      exact hperm.nodup_iff.mpr (hval (es.filter PyValue.truthy)).1
    · intro r hrm
      rw [hv] at hrm
      have h1 : r ∈ env.setEnum (es.filter PyValue.truthy) := hperm.mem_iff.mp hrm
      have h2 : r ∈ es.filter PyValue.truthy :=
        ((hval (es.filter PyValue.truthy)).2 r).mp h1
      exact (List.mem_filter.mp h2).2

/-- Witness for C9: duplicate `pentester` entries and an empty role string
collapse to a single truthy `pentester`. -/
theorem C9_roles_distinct_and_truthy_witness :
    [PyValue.str "pentester"].Nodup ∧
    ∀ r ∈ [PyValue.str "pentester"], PyValue.truthy r = true :=
  C9_roles_distinct_and_truthy sampleEnv []
    (.dict [("id", .str "u1"),
      ("roles", .list [.str "pentester", .str "", .str "pentester"])])
    (.dict [("id", .str "u1"), ("roles", .list [.str "pentester"])])
    [PyValue.str "pentester"]
    sampleEnv_setEnum_valid (by decide) (by decide)

/-- C5: every resolution miss degrades to its documented sentinel instead
of failing: an enum value matching no choice yields `{value: '', label: ''}`;
a CWE value matching no `CWE-<id>` table key yields `{id: None, name: None,
description: None, value: <original>}`; a user reference matching neither
the candidate member list nor the user store yields `None`. -/
theorem C5_resolution_miss_sentinels :
    (∀ (env : RenderEnv) (members : List PyValue) (value : PyValue)
        (i : String) (choices : List EnumChoice) (df : PyValue),
      (∀ c ∈ choices, value ≠ .str c.value) →
      format_template_field env members value (.enum i choices df) =
        .ok (.dict [("value", .str ""), ("label", .str "")])) ∧
    (∀ (env : RenderEnv) (members : List PyValue) (value : PyValue)
        (i : String) (df : PyValue),
      (∀ c ∈ env.cweTable,
        value ≠ .str ("CWE-" ++ (dictGetD c "id" .none).pyToString)) →
      format_template_field env members value (.cwe i df) =
        .ok (.dict [("id", .none), ("name", .none), ("description", .none),
          ("value", value)])) ∧
    (∀ (env : RenderEnv) (members : List PyValue) (s : String),
      (∀ i ∈ members, (getKeyOrAttrD i "id" .none).pyToString ≠ s) →
      env.userStore s = Option.none →
      format_template_field_user env members (.str s) = .ok .none) := by
  refine ⟨?_, ?_, ?_⟩
  · intro env members value i choices df hmiss
    have hf : choices.find? (fun c => value = .str c.value) = Option.none := by
      rw [List.find?_eq_none]
      intro c hc
      simpa using hmiss c hc
    simp [format_template_field, hf]
  · intro env members value i df hmiss
    have hf : env.cweTable.find?
        (fun c => value = .str ("CWE-" ++ (dictGetD c "id" .none).pyToString)) =
        Option.none := by
      rw [List.find?_eq_none]
      intro c hc
      simpa using hmiss c hc
    simp [format_template_field, hf, dictMerge_nil_right]
  · intro env members s hmiss hstore
    have hf : members.find?
        (fun i => (getKeyOrAttrD i "id" .none).pyToString = s) = Option.none := by
      rw [List.find?_eq_none]
      intro i hi
      simpa using hmiss i hi
    simp [format_template_field_user, hf, hstore]

/-- Witness for C5: an unknown enum value, a CWE id absent from a one-entry
table, and a user id matching neither the one candidate member nor the
empty user store. -/
theorem C5_resolution_miss_sentinels_witness :
    format_template_field sampleEnv [] (.str "zz")
      (.enum "severity" [⟨"a", "A"⟩] .none) =
      .ok (.dict [("value", .str ""), ("label", .str "")]) ∧
    format_template_field
      (RenderEnv.mk (fun _ => []) (fun _ => "0.0") (fun _ => "info")
        (fun _ => .int 0) [[("id", .int 79), ("name", .str "XSS")]]
        (fun _ => Option.none) (fun l => l.dedup))
      [] (.str "CWE-999") (.cwe "cwe" .none) =
      .ok (.dict [("id", .none), ("name", .none), ("description", .none),
        ("value", .str "CWE-999")]) ∧
    format_template_field_user sampleEnv [.dict [("id", .str "u1")]] (.str "u2") =
      .ok .none :=
  ⟨C5_resolution_miss_sentinels.1 sampleEnv [] (.str "zz") "severity"
      [⟨"a", "A"⟩] .none (by decide),
   C5_resolution_miss_sentinels.2.1
      (RenderEnv.mk (fun _ => []) (fun _ => "0.0") (fun _ => "info")
        (fun _ => .int 0) [[("id", .int 79), ("name", .str "XSS")]]
        (fun _ => Option.none) (fun l => l.dedup))
      [] (.str "CWE-999") "cwe" .none (by decide),
   C5_resolution_miss_sentinels.2.2 sampleEnv [.dict [("id", .str "u1")]] "u2"
      (by decide) rfl⟩

/-- C4 (code bug): the member pool sort key is
`(role priority, u.get('username'))`, but formatted members never carry a
`username` key (`copy_keys` projects `name`, not `username`), so the
secondary key is always `None` and members with equal role priority stay in
input order instead of display-name order: with two `pentester` members
named `Zed` then `Abe`, the output keeps `Zed` first even though
`"Abe" < "Zed"`. -/
theorem C4_secondary_sort_key_dead :
    format_template_data sampleEnv
      [("pentesters", .list [
        .dict [("id", .str "z1"), ("name", .str "Zed"),
          ("roles", .list [.str "pentester"])],
        .dict [("id", .str "a1"), ("name", .str "Abe"),
          ("roles", .list [.str "pentester"])]])]
      (ProjectType.mk [] [] (fun _ => 0)) [] false =
      .ok [("pentesters", .list [
        .dict [("id", .str "z1"), ("name", .str "Zed"),
          ("roles", .list [.str "pentester"])],
        .dict [("id", .str "a1"), ("name", .str "Abe"),
          ("roles", .list [.str "pentester"])]]),
        ("report", .dict [("id", .str uuid4_placeholder)]),
        ("findings", .list [])] ∧
    dictGet [("id", .str "z1"), ("name", .str "Zed"),
      ("roles", .list [.str "pentester"])] "username" = Option.none ∧
    ("Abe" : String) < "Zed" :=
  ⟨by decide, by decide, String.lt_iff_toList_lt.mpr (by decide)⟩

theorem dictGet_map_set_self (ts : List (String × PyValue)) (k : String) (v : PyValue)
    (h : dictHas ts k = true) :
    dictGet (ts.map (fun kv => if kv.1 = k then (k, v) else kv)) k = some v := by
  induction ts with
  | nil => simp [dictHas, dictGet, List.find?] at h
  | cons hd tl ih =>
      by_cases hk : hd.1 = k
      · simp only [List.map_cons, hk, if_true]
        rw [dictGet_cons]
        simp
      · simp only [List.map_cons, hk, if_false]
        rw [dictGet_cons]
        simp only [hk, if_false]
        rw [dictHas, dictGet_cons] at h
        simp only [hk, if_false] at h
        exact ih (by rw [dictHas]; simpa using h)

theorem dictGet_append_single_self (ts : List (String × PyValue)) (k : String)
    (v : PyValue) (h : dictHas ts k = false) : dictGet (ts ++ [(k, v)]) k = some v := by
  induction ts with
  | nil => simp [dictGet, List.find?]
  | cons hd tl ih =>
      rw [List.cons_append, dictGet_cons]
      rw [dictHas, dictGet_cons] at h
      by_cases hk : hd.1 = k
      · simp [hk] at h
      · simp only [hk, if_false] at h ⊢
        exact ih (by rw [dictHas]; simpa using h)

theorem dictGet_dictSet_self (ts : List (String × PyValue)) (k : String)
    (v : PyValue) : dictGet (dictSet ts k v) k = some v := by
  unfold dictSet
  by_cases h : dictHas ts k
  · rw [if_pos h]
    exact dictGet_map_set_self ts k v h
  · rw [if_neg h]
    exact dictGet_append_single_self ts k v (by simpa using h)

theorem dictGet_map_set_ne (ts : List (String × PyValue)) (k k' : String)
    (v : PyValue) (h : k ≠ k') :
    dictGet (ts.map (fun kv => if kv.1 = k then (k, v) else kv)) k' =
      dictGet ts k' := by
  induction ts with
  | nil => simp [dictGet, List.find?]
  | cons hd tl ih =>
      by_cases hk : hd.1 = k
      · simp only [List.map_cons, hk, if_true]
        rw [dictGet_cons, dictGet_cons]
        simp only [h, hk, if_false]
        exact ih
      · simp only [List.map_cons, hk, if_false]
        rw [dictGet_cons, dictGet_cons]
        by_cases hk' : hd.1 = k'
        · simp [hk']
        · simp only [hk', if_false]
          exact ih

theorem dictGet_append_single_ne (ts : List (String × PyValue)) (k k' : String)
    (v : PyValue) (h : k ≠ k') : dictGet (ts ++ [(k, v)]) k' = dictGet ts k' := by
  induction ts with
  | nil => simp [dictGet, List.find?, h]
  | cons hd tl ih =>
      rw [List.cons_append, dictGet_cons, dictGet_cons]
      by_cases hk' : hd.1 = k'
      · simp [hk']
      · simp only [hk', if_false]
        exact ih

theorem dictGet_dictSet_ne (ts : List (String × PyValue)) (k k' : String)
    (v : PyValue) (h : k ≠ k') : dictGet (dictSet ts k v) k' = dictGet ts k' := by
  unfold dictSet
  by_cases hh : dictHas ts k
  · rw [if_pos hh]
    exact dictGet_map_set_ne ts k k' v h
  · rw [if_neg hh]
    exact dictGet_append_single_ne ts k k' v h

theorem ensure_fields_get (kvs : List (String × PyValue)) :
    ∀ fields : List FieldDef, (fieldIds fields).Nodup →
      ∀ f ∈ fields, dictGet (ensure_fields kvs fields) f.fid =
        some (ensure_defined_structure (dictGet kvs f.fid) f) := by
  intro fields
  induction fields with
  | nil => intro _ f hf; exact absurd hf (List.not_mem_nil f)
  | cons f0 rest ih =>
      intro hnd f hf
      rw [fieldIds, List.map_cons, List.nodup_cons] at hnd
      rcases List.mem_cons.mp hf with rfl | hfr
      · rw [ensure_fields, dictGet_cons, if_pos rfl]
      · rw [ensure_fields, dictGet_cons]
        have hne : f0.fid ≠ f.fid := by
          intro he
          exact hnd.1 (he ▸ List.mem_map_of_mem FieldDef.fid hfr)
        rw [if_neg hne]
        exact ih hnd.2 f hfr

theorem wellShapedFields_get (kvs : List (String × PyValue)) :
    ∀ fields : List FieldDef, wellShapedFields kvs fields = true →
      ∀ f ∈ fields,
        wellShaped (ensure_defined_structure (dictGet kvs f.fid) f) f = true := by
  intro fields
  induction fields with
  | nil => intro _ f hf; exact absurd hf (List.not_mem_nil f)
  | cons f0 rest ih =>
      intro hws f hf
      rw [wellShapedFields, Bool.and_eq_true] at hws
      rcases List.mem_cons.mp hf with rfl | hfr
      · exact hws.1
      · exact ih hws.2 f hfr

theorem uniqueIdsList_get :
    ∀ fields : List FieldDef, uniqueIdsList fields = true →
      ∀ f ∈ fields, uniqueIds f = true := by
  intro fields
  induction fields with
  | nil => intro _ f hf; exact absurd hf (List.not_mem_nil f)
  | cons f0 rest ih =>
      intro hu f hf
      rw [uniqueIdsList, Bool.and_eq_true] at hu
      rcases List.mem_cons.mp hf with rfl | hfr
      · exact hu.1
      · exact ih hu.2 f hfr

theorem format_user_ok (env : RenderEnv) (u : PyValue)
    (h : userRecordOk u = true) : ∃ w, format_user env u = .ok w := by
  unfold format_user
  by_cases ht : u.truthy
  · rw [if_neg (not_not_intro ht)]
    unfold userRecordOk at h
    rw [ht] at h
    simp only [Bool.not_true, Bool.false_or, Bool.and_eq_true] at h
    obtain ⟨es, hes⟩ : ∃ es, (getKeyOrAttrD u "roles" (.list [])).pyIter = .ok es := by
      rcases hcase : (getKeyOrAttrD u "roles" (.list [])).pyIter with e | es
      · rw [hcase] at h
        simp at h
      · exact ⟨es, rfl⟩
    have hhash : (es.filter PyValue.truthy).all PyValue.pyHashable = true := by
      have h2 := h.2
      rw [hes] at h2
      exact h2
    obtain ⟨b, hb⟩ : ∃ b, format_user_base u = .ok b := by
      cases u with
      | pobj cls attrs =>
          rw [format_user_base]
          by_cases hcls : cls = "ProjectMemberInfo"
          · rw [if_pos hcls]
            have h1 : (dictGet attrs "user").isSome = true := by
              have := h.1
              dsimp only at this
              rwa [if_pos hcls] at this
            obtain ⟨w, hw⟩ := Option.isSome_iff_exists.mp h1
            rw [hw]
            exact ⟨w, rfl⟩
          · rw [if_neg hcls]
            exact ⟨_, rfl⟩
      | none => exact ⟨_, rfl⟩
      | bool b => exact ⟨_, rfl⟩
      | int n => exact ⟨_, rfl⟩
      | str s => exact ⟨_, rfl⟩
      | list xs => exact ⟨_, rfl⟩
      | dict kvs => exact ⟨_, rfl⟩
    simp only [bind, Except.bind, hb, hes]
    rw [if_pos hhash]
    exact ⟨_, rfl⟩
  · rw [if_pos (by simpa using ht)]
    exact ⟨.none, rfl⟩

theorem format_template_field_user_ok (env : RenderEnv) (members : List PyValue)
    (value : PyValue) (hv : userRecordOk value = true)
    (hm : ∀ u ∈ members, userRecordOk u = true) :
    ∃ w, format_template_field_user env members value = .ok w := by
  unfold format_template_field_user
  cases value with
  | pobj cls attrs =>
      dsimp only
      by_cases hcls : cls = "ProjectMemberInfo" ∨ cls = "PentestUser"
      · rw [if_pos hcls]
        exact format_user_ok env _ hv
      · rw [if_neg hcls]
        exact ⟨_, rfl⟩
  | dict kvs => exact format_user_ok env _ hv
  | none => exact format_user_ok env _ hv
  | str s =>
      dsimp only
      cases hf : members.find?
          (fun i => (getKeyOrAttrD i "id" .none).pyToString = s) with
      | some u => exact format_user_ok env u (hm u (List.mem_of_find?_eq_some hf))
      | none =>
          cases hs : env.userStore s with
          | some attrs =>
              apply format_user_ok
              simp [userRecordOk, PyValue.truthy, getKeyOrAttrD, getKeyOrAttr,
                dictGet, List.find?, PyValue.pyIter, PyValue.pyHashable]
          | none => exact ⟨_, rfl⟩
  | bool b => exact ⟨_, rfl⟩
  | int n => exact ⟨_, rfl⟩
  | list xs => exact ⟨_, rfl⟩

mutual

theorem format_ok (env : RenderEnv) (members : List PyValue)
    (hm : ∀ u ∈ members, userRecordOk u = true) :
    ∀ (f : FieldDef) (v : PyValue), uniqueIds f = true → wellShaped v f = true →
      ∃ w, format_template_field env members v f = .ok w
  | .enum i cs df, v, _, _ => ⟨_, rfl⟩
  | .cvss i df, v, _, _ => ⟨_, rfl⟩
  | .cwe i df, v, _, _ => ⟨_, rfl⟩
  | .markdown i df, v, _, _ => ⟨_, rfl⟩
  | .scalar i df, v, _, _ => ⟨_, rfl⟩
  | .user i df, v, _, hw => by
      have hv : userRecordOk v = true := by simpa [wellShaped] using hw
      have := format_template_field_user_ok env members v hv hm
      simpa [format_template_field] using this
  | .listF i items, v, hu, hw => by
      have hw2 : (match v.pyIter with
          | .ok es => es.all (fun e => wellShaped e items)
          | .error _ => false) = true := hw
      rcases hiter : v.pyIter with e | es
      · rw [hiter] at hw2
        simp at hw2
      · rw [hiter] at hw2
        dsimp only at hw2
        have hall : ∀ e ∈ es, wellShaped e items = true := by
          intro e he
          exact List.all_eq_true.mp hw2 e he
        obtain ⟨ws, hws⟩ := format_list_ok env members hm items es
          (by simpa [uniqueIds] using hu) hall
        refine ⟨.list ws, ?_⟩
        simp [format_template_field, hiter, hws, bind, Except.bind]
  | .objF i fields, v, hu, hw => by
      cases v with
      | dict kvs =>
          have hw2 : wellShapedFields kvs fields = true := hw
          rw [uniqueIds, Bool.and_eq_true] at hu
          have hinv : ∀ f ∈ fields,
              ∃ w, dictGet (dictMerge kvs (ensure_fields kvs fields)) f.fid =
                some w ∧ wellShaped w f = true := by
            intro f hf
            have hens := ensure_fields_get kvs fields (by simpa using hu.1) f hf
            refine ⟨ensure_defined_structure (dictGet kvs f.fid) f, ?_,
              wellShapedFields_get kvs fields hw2 f hf⟩
            rw [dictGet_dictMerge_right _ _ _ (by rw [dictHas, hens]; rfl)]
            exact hens
          obtain ⟨out', hout⟩ := format_fields_ok env members hm fields
            (dictMerge kvs (ensure_fields kvs fields)) hu.2 (by simpa using hu.1)
            hinv
          refine ⟨.dict out', ?_⟩
          simp [format_template_field, hout, bind, Except.bind]
      | none => simp [wellShaped] at hw
      | bool b => simp [wellShaped] at hw
      | int n => simp [wellShaped] at hw
      | str s => simp [wellShaped] at hw
      | list xs => simp [wellShaped] at hw
      | pobj cls attrs => simp [wellShaped] at hw
termination_by f v hu hw => (sizeOf f, 0)

theorem format_list_ok (env : RenderEnv) (members : List PyValue)
    (hm : ∀ u ∈ members, userRecordOk u = true) :
    ∀ (items : FieldDef) (es : List PyValue), uniqueIds items = true →
      (∀ e ∈ es, wellShaped e items = true) →
      ∃ ws, exMapM (fun e => format_template_field env members e items) es = .ok ws
  | items, [], _, _ => ⟨[], rfl⟩
  | items, e :: rest, hu, hall => by
      obtain ⟨w, hw⟩ := format_ok env members hm items e hu (hall e (by simp))
      obtain ⟨ws, hws⟩ := format_list_ok env members hm items rest hu
        (fun x hx => hall x (by simp [hx]))
      refine ⟨w :: ws, ?_⟩
      rw [exMapM, hw, hws]
termination_by items es hu hall => (sizeOf items, 1 + es.length)

theorem format_fields_ok (env : RenderEnv) (members : List PyValue)
    (hm : ∀ u ∈ members, userRecordOk u = true) :
    ∀ (fields : List FieldDef) (out : List (String × PyValue)),
      uniqueIdsList fields = true → (fieldIds fields).Nodup →
      (∀ f ∈ fields, ∃ w, dictGet out f.fid = some w ∧ wellShaped w f = true) →
      ∃ out', format_fields env members out fields = .ok out'
  | [], out, _, _, _ => ⟨out, rfl⟩
  | f :: rest, out, hu, hnd, hinv => by
      rw [uniqueIdsList, Bool.and_eq_true] at hu
      rw [fieldIds, List.map_cons, List.nodup_cons] at hnd
      obtain ⟨w, hgw, hww⟩ := hinv f (by simp)
      obtain ⟨fw, hfw⟩ := format_ok env members hm f w hu.1 hww
      have hinv2 : ∀ g ∈ rest, ∃ wg, dictGet (dictSet out f.fid fw) g.fid =
          some wg ∧ wellShaped wg g = true := by
        intro g hg
        obtain ⟨wg, hwg, hwwg⟩ := hinv g (by simp [hg])
        have hne : f.fid ≠ g.fid := fun he =>
          hnd.1 (he ▸ List.mem_map_of_mem FieldDef.fid hg)
        refine ⟨wg, ?_, hwwg⟩
        rw [dictGet_dictSet_ne _ _ _ _ hne]
        exact hwg
      obtain ⟨out', hout'⟩ := format_fields_ok env members hm rest
        (dictSet out f.fid fw) hu.2 hnd.2 hinv2
      refine ⟨out', ?_⟩
      rw [format_fields]
      rw [show dictGetD out f.fid .none = w from by rw [dictGetD, hgw]; rfl]
      simp [hfw, hout', bind, Except.bind]
termination_by fields out hu hnd hinv => (sizeOf fields, 1)

end

/-- C1 (amended): `format_template_field` returns a value and never raises
for values that are well shaped for the container and reference kinds -
list-typed values Python-iterable with well-shaped elements, object-typed
values dicts whose reconciled children are well shaped, user-typed values
formattable records (a `roles` value that is iterable with every truthy
element hashable, and a `ProjectMemberInfo` carrying its `user`) - with
single-kind values otherwise unconstrained, over a schema with distinct
field ids and a candidate member list of formattable records; unresolvable
references yield the documented sentinel values instead of errors (see the
C5 theorem). -/
theorem C1_format_no_raise_on_wellShaped (env : RenderEnv)
    (members : List PyValue) (v : PyValue) (f : FieldDef)
    (hu : uniqueIds f = true)
    (hm : ∀ u ∈ members, userRecordOk u = true)
    (hw : wellShaped v f = true) :
    ∃ w, format_template_field env members v f = .ok w :=
  format_ok env members hm f v hu hw

/-- Witness for the amended C1: an empty raw dict formatted against an
object schema with a user field and a list field. -/
theorem C1_format_no_raise_on_wellShaped_witness :
    ∃ w, format_template_field sampleEnv [] (.dict [])
      (.objF "o" [.user "assignee" .none,
        .listF "refs" (.scalar "r" (.str ""))]) = .ok w :=
  C1_format_no_raise_on_wellShaped sampleEnv [] (.dict [])
    (.objF "o" [.user "assignee" .none, .listF "refs" (.scalar "r" (.str ""))])
    (by decide) (by simp) (by decide)

/-- Counterexample for C1 as stated: a `None` value on a list-typed field
raises `TypeError` (`for e in None` in the list comprehension), so the
formatter is not total on malformed container values. -/
theorem C1_list_none_raises_counterexample :
    format_template_field sampleEnv [] .none
      (.listF "refs" (.scalar "item" .none)) = .error .typeError := by decide

theorem exMapM_mem {α β : Type} (f : α → Except PyErr β) :
    ∀ (l : List α) (bs : List β), exMapM f l = .ok bs →
      ∀ b ∈ bs, ∃ a ∈ l, f a = .ok b := by
  intro l
  induction l with
  | nil =>
      intro bs h b hb
      rw [exMapM] at h
      injection h with h
      rw [← h] at hb
      exact absurd hb (List.not_mem_nil b)
  | cons a rest ih =>
      intro bs h b hb
      rw [exMapM] at h
      cases hfa : f a with
      | error e => rw [hfa] at h; simp at h
      | ok w =>
          rw [hfa] at h
          cases hrest : exMapM f rest with
          | error e => rw [hrest] at h; simp at h
          | ok ws =>
              rw [hrest] at h
              injection h with h
              rw [← h] at hb
              rcases List.mem_cons.mp hb with rfl | hbw
              · exact ⟨a, by simp, hfa⟩
              · obtain ⟨x, hx, hfx⟩ := ih ws hrest b hbw
                exact ⟨x, by simp [hx], hfx⟩

theorem sort_findings_mem (pt : ProjectType) (ov : Bool) (l : List PyValue)
    (x : PyValue) (h : x ∈ sort_findings pt ov l) : x ∈ l := by
  unfold sort_findings at h
  by_cases hov : ov
  · rwa [if_pos hov] at h
  · rw [if_neg hov] at h
    exact (List.perm_insertionSort _ l).subset h

theorem schemaCompleteFields_lookup (kvs : List (String × PyValue)) :
    ∀ fields : List FieldDef, schemaCompleteFields kvs fields = true →
      ∀ f ∈ fields, ∃ w, dictGet kvs f.fid = some w ∧ schemaComplete w f = true := by
  intro fields
  induction fields with
  | nil => intro _ f hf; exact absurd hf (List.not_mem_nil f)
  | cons f0 rest ih =>
      intro hc f hf
      rw [schemaCompleteFields, Bool.and_eq_true] at hc
      rcases List.mem_cons.mp hf with rfl | hfr
      · rcases hg : dictGet kvs f.fid with _ | w
        · rw [hg] at hc
          simp at hc
        · rw [hg] at hc
          exact ⟨w, rfl, hc.1⟩
      · exact ih hc.2 f hfr

theorem schemaCompleteFields_append_single (kvs : List (String × PyValue))
    (k : String) (v : PyValue) :
    ∀ fields : List FieldDef, schemaCompleteFields kvs fields = true →
      schemaCompleteFields (kvs ++ [(k, v)]) fields = true := by
  intro fields
  induction fields with
  | nil => intro _; rfl
  | cons f0 rest ih =>
      intro hc
      rw [schemaCompleteFields, Bool.and_eq_true] at hc
      rw [schemaCompleteFields, Bool.and_eq_true]
      refine ⟨?_, ih hc.2⟩
      rcases hg : dictGet kvs f0.fid with _ | w
      · rw [hg] at hc
        simp at hc
      · rw [hg] at hc
        rw [dictGet_append_cases, if_pos (by rw [dictHas, hg]; rfl), hg]
        exact hc.1

theorem format_fields_preserves (env : RenderEnv) (members : List PyValue) :
    ∀ (fields : List FieldDef) (out out' : List (String × PyValue)) (k : String),
      format_fields env members out fields = .ok out' →
      (∀ f ∈ fields, f.fid ≠ k) →
      dictGet out' k = dictGet out k := by
  intro fields
  induction fields with
  | nil =>
      intro out out' k h _
      rw [format_fields] at h
      injection h with h
      rw [h]
  | cons f rest ih =>
      intro out out' k h hk
      rw [format_fields] at h
      simp only [bind, Except.bind] at h
      cases hfw : format_template_field env members (dictGetD out f.fid .none) f with
      | error e => rw [hfw] at h; simp at h
      | ok w =>
          rw [hfw] at h
          have hrest := ih (dictSet out f.fid w) out' k h
            (fun g hg => hk g (by simp [hg]))
          rw [hrest, dictGet_dictSet_ne _ _ _ _ (hk f (by simp))]

mutual

theorem format_complete (env : RenderEnv) (members : List PyValue) :
    ∀ (f : FieldDef) (v w : PyValue), uniqueIds f = true →
      format_template_field env members v f = .ok w →
      schemaComplete w f = true
  | .enum i cs df, v, w, _, _ => rfl
  | .cvss i df, v, w, _, _ => rfl
  | .cwe i df, v, w, _, _ => rfl
  | .user i df, v, w, _, _ => rfl
  | .markdown i df, v, w, _, _ => rfl
  | .scalar i df, v, w, _, _ => rfl
  | .listF i items, v, w, hu, h => by
      simp only [format_template_field, bind, Except.bind] at h
      rcases hiter : v.pyIter with e | es
      · rw [hiter] at h
        simp at h
      · rw [hiter] at h
        dsimp only at h
        cases hmap : exMapM (fun e => format_template_field env members e items) es with
        | error e => rw [hmap] at h; simp at h
        | ok ws =>
            rw [hmap] at h
            injection h with h
            rw [← h]
            have hall : ∀ x ∈ ws, schemaComplete x items = true :=
              format_list_complete env members items es ws
                (by simpa [uniqueIds] using hu) hmap
            simpa [schemaComplete, List.all_eq_true] using hall
  | .objF i fields, v, w, hu, h => by
      rw [uniqueIds, Bool.and_eq_true] at hu
      cases v with
      | dict kvs =>
          simp only [format_template_field, bind, Except.bind] at h
          cases hff : format_fields env members
              (dictMerge kvs (ensure_fields kvs fields)) fields with
          | error e => rw [hff] at h; simp at h
          | ok out1 =>
              rw [hff] at h
              injection h with h
              rw [← h]
              have := format_fields_complete env members fields
                (dictMerge kvs (ensure_fields kvs fields)) out1 hu.2
                (by simpa using hu.1) hff
              simpa [schemaComplete] using this
      | none => simp [format_template_field] at h
      | bool b => simp [format_template_field] at h
      | int n => simp [format_template_field] at h
      | str s => simp [format_template_field] at h
      | list xs => simp [format_template_field] at h
      | pobj cls attrs => simp [format_template_field] at h
termination_by f v w _ _ => (sizeOf f, 0)

theorem format_list_complete (env : RenderEnv) (members : List PyValue) :
    ∀ (items : FieldDef) (es ws : List PyValue), uniqueIds items = true →
      exMapM (fun e => format_template_field env members e items) es = .ok ws →
      ∀ x ∈ ws, schemaComplete x items = true
  | items, [], ws, _, h => by
      rw [exMapM] at h
      injection h with h
      rw [← h]
      intro x hx
      exact absurd hx (List.not_mem_nil x)
  | items, e :: rest, ws, hu, h => by
      rw [exMapM] at h
      cases hfe : format_template_field env members e items with
      | error err => rw [hfe] at h; simp at h
      | ok w =>
          rw [hfe] at h
          cases hrest : exMapM (fun e => format_template_field env members e items)
              rest with
          | error err => rw [hrest] at h; simp at h
          | ok ws' =>
              rw [hrest] at h
              injection h with h
              rw [← h]
              intro x hx
              rcases List.mem_cons.mp hx with rfl | hxw
              · exact format_complete env members items e x hu hfe
              · exact format_list_complete env members items rest ws' hu hrest x hxw
termination_by items es ws _ _ => (sizeOf items, 1 + es.length)

theorem format_fields_complete (env : RenderEnv) (members : List PyValue) :
    ∀ (fields : List FieldDef) (out out' : List (String × PyValue)),
      uniqueIdsList fields = true → (fieldIds fields).Nodup →
      format_fields env members out fields = .ok out' →
      schemaCompleteFields out' fields = true
  | [], out, out', _, _, _ => rfl
  | f :: rest, out, out', hu, hnd, h => by
      rw [uniqueIdsList, Bool.and_eq_true] at hu
      rw [fieldIds, List.map_cons, List.nodup_cons] at hnd
      rw [format_fields] at h
      simp only [bind, Except.bind] at h
      cases hfw : format_template_field env members (dictGetD out f.fid .none) f with
      | error e => rw [hfw] at h; simp at h
      | ok w =>
          rw [hfw] at h
          have hfid : dictGet out' f.fid = some w := by
            rw [format_fields_preserves env members rest (dictSet out f.fid w) out'
              f.fid h (fun g hg he =>
                hnd.1 (he ▸ List.mem_map_of_mem FieldDef.fid hg))]
            exact dictGet_dictSet_self out f.fid w
          rw [schemaCompleteFields, Bool.and_eq_true]
          constructor
          · rw [hfid]
            exact format_complete env members f _ w hu.1 hfw
          · exact format_fields_complete env members rest (dictSet out f.fid w)
              out' hu.2 hnd.2 h
termination_by fields out out' _ _ _ => (sizeOf fields, 1)

end

theorem format_object_result (env : RenderEnv) (members : List PyValue)
    (value : PyValue) (fields : List FieldDef) (rid : Bool) (r : PyValue)
    (hu : uniqueIds (.objF "" fields) = true)
    (h : format_template_field_object env members value fields rid = .ok r) :
    ∃ out, r = .dict out ∧ schemaCompleteFields out fields = true := by
  rw [uniqueIds, Bool.and_eq_true] at hu
  unfold format_template_field_object at h
  cases value with
  | dict kvs =>
      simp only [bind, Except.bind] at h
      cases hff : format_fields env members
          (dictMerge kvs (ensure_fields kvs fields)) fields with
      | error e => rw [hff] at h; simp at h
      | ok out1 =>
          rw [hff] at h
          dsimp only at h
          have hc := format_fields_complete env members fields
            (dictMerge kvs (ensure_fields kvs fields)) out1 hu.2
            (by simpa using hu.1) hff
          by_cases hbr : (rid && !dictHas out1 "id") = true
          · rw [if_pos hbr] at h
            injection h with h
            refine ⟨dictSet out1 "id" (.str uuid4_placeholder), h.symm, ?_⟩
            have hhas : dictHas out1 "id" = false := by
              have hbr2 := hbr
              rw [Bool.and_eq_true] at hbr2
              simpa using hbr2.2
            rw [dictSet, if_neg (by simp [hhas])]
            exact schemaCompleteFields_append_single out1 "id" _ fields hc
          · rw [if_neg hbr] at h
            injection h with h
            exact ⟨out1, h.symm, hc⟩
  | none => simp at h
  | bool b => simp at h
  | int n => simp at h
  | str s => simp at h
  | list xs => simp at h
  | pobj cls attrs => simp at h

/-- C2: every field declared in an object definition is present in the
formatted output of `format_template_field_object`, even when absent from
the raw input, and the tree returned by `format_template_data` has no
missing schema-declared keys: its `report` member and every member of its
`findings` list are recursively schema-complete.  The `uniqueIds`
hypotheses state the schema invariant that field ids are distinct keys. -/
theorem C2_default_fill_invariant :
    (∀ (env : RenderEnv) (members : List PyValue) (value : PyValue)
        (fields : List FieldDef) (rid : Bool) (out : List (String × PyValue)),
      uniqueIds (.objF "" fields) = true →
      format_template_field_object env members value fields rid = .ok (.dict out) →
      ∀ f ∈ fields, ∃ w, dictGet out f.fid = some w ∧ schemaComplete w f = true) ∧
    (∀ (env : RenderEnv) (data : List (String × PyValue)) (pt : ProjectType)
        (imported : List PyValue) (ov : Bool) (out : List (String × PyValue)),
      uniqueIds (.objF "" pt.report_fields) = true →
      uniqueIds (.objF "" pt.finding_fields) = true →
      format_template_data env data pt imported ov = .ok out →
      (∃ r, dictGet out "report" = some r ∧
        schemaComplete r (.objF "" pt.report_fields) = true) ∧
      (∃ fs, dictGet out "findings" = some (.list fs) ∧
        ∀ fv ∈ fs, schemaComplete fv (.objF "" pt.finding_fields) = true)) := by
  constructor
  · intro env members value fields rid out hu h
    obtain ⟨out2, hd, hc⟩ := format_object_result env members value fields rid _ hu h
    have : out2 = out := by
      injection hd.symm
    rw [this] at hc
    exact schemaCompleteFields_lookup out fields hc
  · intro env data pt imported ov out hur huf h
    unfold format_template_data at h
    simp only [bind, Except.bind] at h
    cases hP : pyExpectList (dictGetD data "pentesters" (.list [])) with
    | error e => rw [hP] at h; simp at h
    | ok pentRaw =>
        rw [hP] at h
        dsimp only at h
        cases hM : exMapM (format_template_field_user env imported)
            (pentRaw ++ imported) with
        | error e => rw [hM] at h; simp at h
        | ok members =>
            rw [hM] at h
            dsimp only at h
            cases hR : format_template_field_object env members
                (ensure_defined_structure (some (dictGetD data "report" (.dict [])))
                  (.objF "" pt.report_fields)) pt.report_fields true with
            | error e => rw [hR] at h; simp at h
            | ok r =>
                rw [hR] at h
                dsimp only at h
                cases hFR : (dictGetD (dictSet data "report" r) "findings"
                    (.list [])).pyIter with
                | error e => rw [hFR] at h; simp at h
                | ok findingsRaw =>
                    rw [hFR] at h
                    dsimp only at h
                    cases hF : exMapM (format_finding env members pt) findingsRaw with
                    | error e => rw [hF] at h; simp at h
                    | ok findings =>
                        rw [hF] at h
                        dsimp only at h
                        cases hK : exMapM pentesterKeyed members with
                        | error e => rw [hK] at h; simp at h
                        | ok keyed =>
                            rw [hK] at h
                            dsimp only at h
                            injection h with h
                            constructor
                            · refine ⟨r, ?_, ?_⟩
                              · rw [← h,
                                  dictGet_dictSet_ne _ _ _ _ (by decide),
                                  dictGet_dictSet_ne _ _ _ _ (by decide),
                                  dictGet_dictSet_self]
                              · obtain ⟨kvs', hr, hc⟩ := format_object_result env
                                  members _ pt.report_fields true r hur hR
                                rw [hr]
                                simpa [schemaComplete] using hc
                            · refine ⟨sort_findings pt ov findings, ?_, ?_⟩
                              · rw [← h,
                                  dictGet_dictSet_ne _ _ _ _ (by decide),
                                  dictGet_dictSet_self]
                              · intro fv hfv
                                have hmem := sort_findings_mem pt ov findings fv hfv
                                obtain ⟨a, ha, hfa⟩ := exMapM_mem
                                  (format_finding env members pt) findingsRaw
                                  findings hF fv hmem
                                obtain ⟨kvs', hr, hc⟩ := format_object_result env
                                  members _ pt.finding_fields true fv huf hfa
                                rw [hr]
                                simpa [schemaComplete] using hc

/-- Witness for C2: a one-field object schema fed an empty raw dict, and a
full data assembly over empty raw data with a one-field report schema and a
one-field finding schema. -/
theorem C2_default_fill_invariant_witness :
    (∀ f ∈ [FieldDef.scalar "t" (PyValue.str "d")], ∃ w,
        dictGet [("t", PyValue.str "d")] f.fid = some w ∧
          schemaComplete w f = true) ∧
    ((∃ r, dictGet [("report", PyValue.dict [("title", PyValue.str "x"),
          ("id", PyValue.str uuid4_placeholder)]),
        ("findings", PyValue.list []), ("pentesters", PyValue.list [])]
        "report" = some r ∧
        schemaComplete r (.objF "" [FieldDef.scalar "title" (PyValue.str "x")]) =
          true) ∧
     (∃ fs, dictGet [("report", PyValue.dict [("title", PyValue.str "x"),
          ("id", PyValue.str uuid4_placeholder)]),
        ("findings", PyValue.list []), ("pentesters", PyValue.list [])]
        "findings" = some (.list fs) ∧
        ∀ fv ∈ fs, schemaComplete fv
          (.objF "" [FieldDef.scalar "sev" PyValue.none]) = true)) :=
  ⟨C2_default_fill_invariant.1 sampleEnv [] (.dict [])
      [FieldDef.scalar "t" (PyValue.str "d")] false [("t", PyValue.str "d")]
      (by decide) (by decide),
   C2_default_fill_invariant.2 sampleEnv []
      (ProjectType.mk [FieldDef.scalar "title" (PyValue.str "x")]
        [FieldDef.scalar "sev" PyValue.none] (fun _ => 0)) [] false
      [("report", PyValue.dict [("title", PyValue.str "x"),
          ("id", PyValue.str uuid4_placeholder)]),
        ("findings", PyValue.list []), ("pentesters", PyValue.list [])]
      (by decide) (by decide) (by decide)⟩
